import Mathlib

/-!
Verification development for the model-t GitHub workflow validator.

The TypeScript sources are shallowly embedded: the dynamic YAML tree is an
inductive type, the reader functions of readWorkflow.ts become pure functions
threading their accumulated schema-error list, thrown `SchemaError`s become
`Except` values caught where the source catches them, and the two plain
`Error` throws of `collectSteps` become a separate failure constructor that
escapes the reader, exactly as the exceptions do in the source.
-/

namespace ModelT

/-- Left curly brace character (kept out of string literals). -/
def lcub : Char := '\x7b'

/-- Right curly brace character (kept out of string literals). -/
def rcub : Char := '\x7d'

/-- Dynamic YAML tree produced by the YAML adapter (js-yaml `load`), as
classified by the type predicates of readingFns.ts. JS numbers are carried
by their canonical string representation: the reader and analyzer only ever
inspect a number's dynamic kind or stringify it with a template literal. -/
inductive Yaml where
  | nul
  | bool (b : Bool)
  | num (numRepr : String)
  | str (s : String)
  | arr (items : List Yaml)
  | map (entries : List (String × Yaml))
deriving Repr, Inhabited

/-- JS `typeof` of a YAML tree value (`typeof null` is "object", arrays and
maps are "object"). -/
def typeofYaml : Yaml → String
  | .nul => "object"
  | .bool _ => "boolean"
  | .num _ => "number"
  | .str _ => "string"
  | .arr _ => "object"
  | .map _ => "object"

/-- JS property lookup on an object literal modelled as an ordered
association list (insertion order, unique keys). -/
def lookupKey (entries : List (String × Yaml)) (k : String) : Option Yaml :=
  match entries with
  | [] => none
  | (k2, v) :: rest => if k2 = k then some v else lookupKey rest k

/-- JS `k in obj`. -/
def hasKey (entries : List (String × Yaml)) (k : String) : Bool :=
  (lookupKey entries k).isSome

/-- Decidable equality for `Except` results (used to evaluate the concrete
examples). -/
instance {ε α : Type} [DecidableEq ε] [DecidableEq α] : DecidableEq (Except ε α) :=
  fun a b =>
    match a, b with
    | .ok x, .ok y =>
      if h : x = y then isTrue (by rw [h]) else
        isFalse (by intro hc; cases hc; exact h rfl)
    | .error x, .error y =>
      if h : x = y then isTrue (by rw [h]) else
        isFalse (by intro hc; cases hc; exact h rfl)
    | .ok _, .error _ => isFalse (by intro hc; cases hc)
    | .error _, .ok _ => isFalse (by intro hc; cases hc)

/-- Kernel-evaluable character-list prefix test. -/
def listPrefixEq : List Char → List Char → Bool
  | [], _ => true
  | _ :: _, [] => false
  | p :: ps, c :: cs => p = c && listPrefixEq ps cs

/-- JS `String.prototype.startsWith`. -/
def jsStartsWith (s pre : String) : Bool := listPrefixEq pre.data s.data

/-- JS `String.prototype.endsWith`. -/
def jsEndsWith (s suf : String) : Bool :=
  listPrefixEq suf.data.reverse s.data.reverse

/-- Drop `n` characters from the right. -/
def jsDropRight (s : String) (n : Nat) : String :=
  String.mk (s.data.take (s.data.length - n))

/-- `String.split` on a single separator character (JS `split` keeps empty
segments; the empty string yields one empty segment). -/
def splitOnChar (sep : Char) : List Char → List (List Char)
  | [] => [[]]
  | c :: rest =>
    match splitOnChar sep rest with
    | [] => [[c]]
    | hd :: tl => if c = sep then [] :: hd :: tl else (c :: hd) :: tl

/-- JS `s.split(sep)` for a one-character separator. -/
def jsSplitChar (s : String) (sep : Char) : List String :=
  (splitOnChar sep s.data).map String.mk

/-- readingFns.ts `isString`. -/
def isString : Yaml → Bool
  | .str _ => true
  | _ => false

/-- readingFns.ts `isBoolean`. -/
def isBoolean : Yaml → Bool
  | .bool _ => true
  | _ => false

/-- readingFns.ts `isNumber`. -/
def isNumber : Yaml → Bool
  | .num _ => true
  | _ => false

/-- readingFns.ts `isStringLike`. -/
def isStringLike (v : Yaml) : Bool :=
  isString v || isBoolean v || isNumber v

/-- readingFns.ts `isMap`: a non-null non-array object. -/
def isMapV : Yaml → Bool
  | .map _ => true
  | _ => false

/-- readingFns.ts `isArrayOfMaps`. -/
def isArrayOfMaps : Yaml → Bool
  | .arr items => items.all isMapV
  | _ => false

/-- readingFns.ts `isArrayOfStringLikes`. -/
def isArrayOfStringLikes : Yaml → Bool
  | .arr items => items.all isStringLike
  | _ => false

/-- readingFns.ts `isArrayOfStrings`. -/
def isArrayOfStrings : Yaml → Bool
  | .arr items => items.all isString
  | _ => false

/-- readingFns.ts `isMapOfStringLikes`. -/
def isMapOfStringLikes : Yaml → Bool
  | .map entries => entries.all (fun e => isStringLike e.2)
  | _ => false

/-- readingFns.ts `convertStringLike`: identity on strings, JS template
stringification of booleans and numbers. Only invoked on string-likes. -/
def convertStringLike : Yaml → String
  | .str s => s
  | .bool b => if b then "true" else "false"
  | .num r => r
  | _ => ""

/-- readingFns.ts `convertMapOfStringLikes`. -/
def convertMapOfStringLikes (entries : List (String × Yaml)) :
    List (String × String) :=
  entries.map (fun e => (e.1, convertStringLike e.2))

/-- workflowError.ts `GHWorkflowSchemaError` (the object class is kept as a
plain string). -/
structure SchemaError where
  message : String
  object : String
  path : String
deriving Repr, DecidableEq, Inhabited

/-- The message of the `TypeError` raised by readingFns.ts `readYaml` for a
non-map root value. -/
def beginAgainMsg (t : String) : String :=
  "This " ++ t ++ " YAML is simply the opportunity to begin again, this time with a valid workflow YAML"

/-- readingFns.ts `readYaml`, from the parsed tree on: root must be a map,
else the begin-again `TypeError` is raised with the root's dynamic kind. -/
def readYaml (y : Yaml) : Except String (List (String × Yaml)) :=
  match y with
  | .map entries => .ok entries
  | _ => .error (beginAgainMsg (typeofYaml y))

end ModelT

namespace ModelT

/-- Input discriminator `type` values of the workflow model. -/
inductive InputType where
  | boolean | number | string | choice | environment
deriving DecidableEq, Repr, Inhabited

/-- The `type` field's string value of an input variant. -/
def InputType.name : InputType → String
  | .boolean => "boolean"
  | .number => "number"
  | .string => "string"
  | .choice => "choice"
  | .environment => "environment"

/-- A JS scalar of type boolean, number or string (a `with` value, or an
input default); numbers carried by their canonical string. -/
inductive Scalar where
  | b (v : Bool)
  | n (numRepr : String)
  | s (v : String)
deriving DecidableEq, Repr, Inhabited

/-- JS `typeof` of a scalar. -/
def Scalar.typeofS : Scalar → String
  | .b _ => "boolean"
  | .n _ => "number"
  | .s _ => "string"

/-- Conversion of a string-like YAML scalar to the `Scalar` carried by the
model (`with` maps are stored as parsed). -/
def Scalar.ofYaml : Yaml → Scalar
  | .bool v => Scalar.b v
  | .num v => Scalar.n v
  | .str v => Scalar.s v
  | _ => Scalar.s ""

/-- A workflow event input (model.ts `GHWorkflowCallInput` /
`GHWorkflowDispatchInput` variants flattened: each parse function only sets
the fields its variant carries; `options` is populated only for `choice`). -/
structure WfInput where
  type : InputType
  description : Option String := none
  required : Option Bool := none
  defaultVal : Option Scalar := none
  options : List String := []
deriving DecidableEq, Repr, Inhabited

/-- model.ts `GHWorkflowOnWorkflowCall` (just the optional inputs map). -/
structure WfCallCfg where
  inputs : Option (List (String × WfInput)) := none
deriving DecidableEq, Repr, Inhabited

/-- model.ts `GHWorkflowOnWorkflowDispatch`. -/
structure WfDispatchCfg where
  inputs : Option (List (String × WfInput)) := none
deriving DecidableEq, Repr, Inhabited

/-- model.ts `GHWorkflowOnEvents`: `pull_request` and `push` configurations
carry no attributes, so presence is a flag. -/
structure OnEvents where
  pull_request : Bool := false
  push : Bool := false
  workflow_call : Option WfCallCfg := none
  workflow_dispatch : Option WfDispatchCfg := none
deriving DecidableEq, Repr, Inhabited

/-- The two events whose per-event parser collects inputs. -/
inductive EvKind where
  | workflow_call | workflow_dispatch
deriving DecidableEq, Repr

/-- Event name string. -/
def EvKind.name : EvKind → String
  | .workflow_call => "workflow_call"
  | .workflow_dispatch => "workflow_dispatch"

/-- readWorkflow.ts `INPUT_TYPES`. -/
def INPUT_TYPES : EvKind → List String
  | .workflow_call => ["boolean", "number", "string"]
  | .workflow_dispatch => ["boolean", "choice", "environment", "number", "string"]

/-- readWorkflow.ts `INPUT_PROPS`. -/
def INPUT_PROPS : List String := ["default", "description", "required", "type"]

/-- Path `on.<event>.inputs.<id>`. -/
def inputPath (event : EvKind) (inputId : String) : String :=
  "on." ++ event.name ++ ".inputs." ++ inputId

/-- readWorkflow.ts `isValidInput`: validates shape, discriminator and field
whitelist of one input; returns the entries and the `type` string. -/
def isValidInput (inputYaml : Yaml) (inputId : String) (event : EvKind) :
    Except SchemaError (List (String × Yaml) × String) :=
  match inputYaml with
  | .map entries =>
    match lookupKey entries "type" with
    | none =>
      .error { message := "`undefined` must explicitly have an input type",
               object := "input", path := inputPath event inputId ++ ".type" }
    | some tv =>
      match tv with
      | .str t =>
        if ¬ (INPUT_TYPES event).contains t then
          .error { message := "`" ++ t ++ "` is not a valid " ++ event.name ++ " input type",
                   object := "input", path := inputPath event inputId ++ ".type" }
        else
          let invalidProps := (entries.map Prod.fst).filter
            (fun p => ¬ (INPUT_PROPS.contains p || (t = "choice" && p = "options")))
          match invalidProps with
          | [] => .ok (entries, t)
          | [p] =>
            .error { message := "`" ++ inputId ++ "` cannot have field `" ++ p ++ "`",
                     object := "input", path := inputPath event inputId }
          | ps =>
            .error { message := "`" ++ inputId ++ "` cannot have fields: " ++
                       String.intercalate ", " ((ps.insertionSort (· ≤ ·)).map
                         (fun p => "`" ++ p ++ "`")),
                     object := "input", path := inputPath event inputId }
      | _ =>
        .error { message := "Must be a string", object := "input",
                 path := inputPath event inputId ++ ".type" }
  | _ =>
    .error { message := "Must be a map of input configuration", object := "input",
             path := inputPath event inputId }

/-- readWorkflow.ts `parseInputProps`: optional `description` and `required`
with non-fatal errors. -/
def parseInputProps (input : WfInput) (entries : List (String × Yaml))
    (event : EvKind) (inputId : String) : WfInput × List SchemaError :=
  let (input, errs1) :=
    match lookupKey entries "description" with
    | none => (input, ([] : List SchemaError))
    | some d =>
      if isStringLike d then ({ input with description := some (convertStringLike d) }, [])
      else (input, [{ message := "Must be a string", object := "input",
                      path := inputPath event inputId ++ ".description" }])
  let (input, errs2) :=
    match lookupKey entries "required" with
    | none => (input, ([] : List SchemaError))
    | some r =>
      match r with
      | .bool b => ({ input with required := some b }, [])
      | _ => (input, [{ message := "Must be a boolean", object := "input",
                        path := inputPath event inputId ++ ".required" }])
  (input, errs1 ++ errs2)

/-- readWorkflow.ts `parseBooleanInput`. -/
def parseBooleanInput (entries : List (String × Yaml)) (event : EvKind)
    (inputId : String) : List SchemaError × Except SchemaError WfInput :=
  let (input, errs) := parseInputProps { type := .boolean } entries event inputId
  match lookupKey entries "default" with
  | none => (errs, .ok input)
  | some d =>
    match d with
    | .bool b => (errs, .ok { input with defaultVal := some (.b b) })
    | _ => (errs, .error { message := "Must be a boolean", object := "input",
                           path := inputPath event inputId ++ ".default" })

/-- readWorkflow.ts `parseNumberInput`. -/
def parseNumberInput (entries : List (String × Yaml)) (event : EvKind)
    (inputId : String) : List SchemaError × Except SchemaError WfInput :=
  let (input, errs) := parseInputProps { type := .number } entries event inputId
  match lookupKey entries "default" with
  | none => (errs, .ok input)
  | some d =>
    match d with
    | .num r => (errs, .ok { input with defaultVal := some (.n r) })
    | _ => (errs, .error { message := "Must be a number", object := "input",
                           path := inputPath event inputId ++ ".default" })

/-- readWorkflow.ts `parseStringInput`. -/
def parseStringInput (entries : List (String × Yaml)) (event : EvKind)
    (inputId : String) : List SchemaError × Except SchemaError WfInput :=
  let (input, errs) := parseInputProps { type := .string } entries event inputId
  match lookupKey entries "default" with
  | none => (errs, .ok input)
  | some d =>
    if isStringLike d then
      (errs, .ok { input with defaultVal := some (.s (convertStringLike d)) })
    else
      (errs, .error { message := "Must be a string", object := "input",
                      path := inputPath event inputId ++ ".default" })

/-- readWorkflow.ts `parseChoiceInput` (paths hard-code `workflow_dispatch`
as in the source). Note `isArrayOfStringLikes` accepts the empty array. -/
def parseChoiceInput (entries : List (String × Yaml)) (inputId : String) :
    List SchemaError × Except SchemaError WfInput :=
  match lookupKey entries "options" with
  | none =>
    ([], .error { message := "Choice input must have `options`", object := "input",
                  path := inputPath .workflow_dispatch inputId })
  | some optsY =>
    match optsY with
    | .arr items =>
      if items.all isStringLike then
        let options := items.map convertStringLike
        let (input, errs) :=
          parseInputProps { type := .choice, options := options } entries
            .workflow_dispatch inputId
        match lookupKey entries "default" with
        | none => (errs, .ok input)
        | some d =>
          if isStringLike d then
            let dv := convertStringLike d
            if options.contains dv then
              (errs, .ok { input with defaultVal := some (.s dv) })
            else
              (errs, .error { message := "`" ++ convertStringLike d ++ "` is not an input option",
                              object := "input",
                              path := inputPath .workflow_dispatch inputId ++ ".default" })
          else
            (errs, .error { message := "Must be a string", object := "input",
                            path := inputPath .workflow_dispatch inputId ++ ".default" })
      else
        ([], .error { message := "Must be an array of strings", object := "input",
                      path := inputPath .workflow_dispatch inputId ++ ".options" })
    | _ =>
      ([], .error { message := "Must be an array of strings", object := "input",
                    path := inputPath .workflow_dispatch inputId ++ ".options" })

/-- readWorkflow.ts `parseEnvironmentInput`. -/
def parseEnvironmentInput (entries : List (String × Yaml)) (inputId : String) :
    List SchemaError × Except SchemaError WfInput :=
  let (input, errs) :=
    parseInputProps { type := .environment } entries .workflow_dispatch inputId
  match lookupKey entries "default" with
  | none => (errs, .ok input)
  | some d =>
    if isStringLike d then
      (errs, .ok { input with defaultVal := some (.s (convertStringLike d)) })
    else
      (errs, .error { message := "Must be a string", object := "input",
                      path := inputPath .workflow_dispatch inputId ++ ".default" })

/-- One entry of the inputs map inside readWorkflow.ts `collectEventInputs`:
validates, dispatches on the discriminator, catching a thrown `SchemaError`
into the error list (the input is then dropped from the result). -/
def collectInputEntry (event : EvKind) (inputId : String) (y : Yaml) :
    List SchemaError × Option WfInput :=
  match isValidInput y inputId event with
  | .error se => ([se], none)
  | .ok (entries, t) =>
    let r :=
      if t = "boolean" then some (parseBooleanInput entries event inputId)
      else if t = "number" then some (parseNumberInput entries event inputId)
      else if t = "string" then some (parseStringInput entries event inputId)
      else if t = "choice" then some (parseChoiceInput entries inputId)
      else if t = "environment" then some (parseEnvironmentInput entries inputId)
      else none
    match r with
    | none => ([], none)
    | some (errs, .ok input) => (errs, some input)
    | some (errs, .error se) => (errs ++ [se], none)

/-- readWorkflow.ts `collectEventInputs`. -/
def collectEventInputs (cfg : List (String × Yaml)) (event : EvKind) :
    List SchemaError × Option (List (String × WfInput)) :=
  match lookupKey cfg "inputs" with
  | none => ([], none)
  | some inputsY =>
    match inputsY with
    | .map inputEntries =>
      let (errs, inputs) := inputEntries.foldl
        (fun acc e =>
          let (es, r) := collectInputEntry event e.1 e.2
          match r with
          | some input => (acc.1 ++ es, acc.2 ++ [(e.1, input)])
          | none => (acc.1 ++ es, acc.2))
        (([] : List SchemaError), ([] : List (String × WfInput)))
      (errs, some inputs)
    | _ =>
      ([{ message := "Must be a map of workflow inputs", object := "event",
          path := "on." ++ event.name ++ ".inputs" }], none)

/-- readWorkflow.ts `isValidInputsMap`. -/
def isValidInputsMap (cfg : List (String × Yaml)) (event : EvKind) :
    List SchemaError × Bool :=
  match lookupKey cfg "inputs" with
  | none => ([], false)
  | some y =>
    match y with
    | .map _ => ([], true)
    | _ =>
      ([{ message := "Must be a map of workflow inputs", object := "event",
          path := "on." ++ event.name ++ ".inputs" }], false)

/-- readWorkflow.ts `parseWorkflowCallCfg`. -/
def parseWorkflowCallCfg (cfg : List (String × Yaml)) :
    List SchemaError × WfCallCfg :=
  let (errs1, ok) := isValidInputsMap cfg .workflow_call
  if ok then
    let (errs2, inputs) := collectEventInputs cfg .workflow_call
    (errs1 ++ errs2, { inputs := inputs })
  else (errs1, { inputs := none })

/-- readWorkflow.ts `parseWorkflowDispatchCfg`. -/
def parseWorkflowDispatchCfg (cfg : List (String × Yaml)) :
    List SchemaError × WfDispatchCfg :=
  let (errs1, ok) := isValidInputsMap cfg .workflow_dispatch
  if ok then
    let (errs2, inputs) := collectEventInputs cfg .workflow_dispatch
    (errs1 ++ errs2, { inputs := inputs })
  else (errs1, { inputs := none })

/-- model.ts `GHWorkflowEvents`. -/
def GHWorkflowEvents : List String :=
  ["pull_request", "push", "workflow_call", "workflow_dispatch"]

/-- readWorkflow.ts `isWorkflowEvent`. -/
def isWorkflowEvent (v : String) : Bool := GHWorkflowEvents.contains v

/-- readWorkflow.ts `setEmptyOnWorkflowCfg`. -/
def setEmptyOnWorkflowCfg (onE : OnEvents) (event : String) : OnEvents :=
  if event = "pull_request" then { onE with pull_request := true }
  else if event = "push" then { onE with push := true }
  else if event = "workflow_call" then { onE with workflow_call := some {} }
  else if event = "workflow_dispatch" then { onE with workflow_dispatch := some {} }
  else onE

/-- One entry of the `on` map inside readWorkflow.ts `collectEventCfgs`
(thrown `SchemaError`s are caught per entry and appended). -/
def processOnEntry (acc : OnEvents × List SchemaError) (e : String × Yaml) :
    OnEvents × List SchemaError :=
  let (onE, errs) := acc
  if ¬ isWorkflowEvent e.1 then
    (onE, errs ++ [{ message := "`" ++ e.1 ++ "` is not a valid workflow trigger event name",
                     object := "event", path := "on." ++ e.1 }])
  else
    match e.2 with
    | .nul => (setEmptyOnWorkflowCfg onE e.1, errs)
    | .map cfgEntries =>
      if e.1 = "pull_request" then ({ onE with pull_request := true }, errs)
      else if e.1 = "push" then ({ onE with push := true }, errs)
      else if e.1 = "workflow_call" then
        let (es, cfg) := parseWorkflowCallCfg cfgEntries
        ({ onE with workflow_call := some cfg }, errs ++ es)
      else if e.1 = "workflow_dispatch" then
        let (es, cfg) := parseWorkflowDispatchCfg cfgEntries
        ({ onE with workflow_dispatch := some cfg }, errs ++ es)
      else (onE, errs)
    | _ =>
      (onE, errs ++ [{ message := "Must be a map of event configuration",
                       object := "event", path := "on." ++ e.1 }])

/-- readWorkflow.ts `collectEventCfgs`. -/
def collectEventCfgs (wfYaml : List (String × Yaml)) :
    OnEvents × List SchemaError :=
  match lookupKey wfYaml "on" with
  | none => ({}, [])
  | some onY =>
    match onY with
    | .arr items =>
      if items.all isString then
        items.foldl
          (fun acc it =>
            match it with
            | .str event =>
              if isWorkflowEvent event then (setEmptyOnWorkflowCfg acc.1 event, acc.2)
              else (acc.1, acc.2 ++
                [{ message := "`" ++ event ++ "` is not a valid workflow trigger event name",
                   object := "event", path := "on." ++ event }])
            | _ => acc)
          ({}, [])
      else
        ({}, [{ message := "Must be an array or map of workflow triggering events",
                object := "workflow", path := "on" }])
    | .map onEntries => onEntries.foldl processOnEntry ({}, [])
    | _ =>
      ({}, [{ message := "Must be an array or map of workflow triggering events",
              object := "workflow", path := "on" }])

end ModelT

namespace ModelT

/-- model.ts `GHWorkflowCallSpecifier`. -/
inductive WfCallSpec where
  | filesystem (path : String)
  | repository (owner repo filename ref specifier : String)
deriving DecidableEq, Repr, Inhabited

/-- model.ts `GHWorkflowActionSpecifier`. -/
inductive ActionSpec where
  | docker (uri : String)
  | filesystem (path : String)
  | repository (owner repo : String) (subdirectory : Option String)
      (ref specifier : String)
deriving DecidableEq, Repr, Inhabited

/-- The `runs-on` forms accepted by the job parser. -/
inductive RunsOn where
  | image (s : String)
  | labels (ls : List String)
  | group (group : String) (labels : List String)
deriving DecidableEq, Repr, Inhabited

/-- model.ts `GHWorkflowStepRunsShell` (field names track the source;
`ifCond` models `if`). -/
structure RunStep where
  id : Option String := none
  ifCond : Option String := none
  name : Option String := none
  run : String
  env : Option (List (String × String)) := none
deriving DecidableEq, Repr

/-- model.ts `GHWorkflowStepUsesAction`; `withArgs` models `with`. The type
carries no `env` field, as in the source. -/
structure UsesStep where
  id : Option String := none
  ifCond : Option String := none
  name : Option String := none
  uses : ActionSpec
  withArgs : Option (List (String × Scalar)) := none
deriving DecidableEq, Repr

/-- model.ts `GHWorkflowStep`. -/
inductive Step where
  | run (s : RunStep)
  | uses (s : UsesStep)
deriving DecidableEq, Repr

/-- model.ts `GHWorkflowJobRunsSteps`. -/
structure StepsJob where
  ifCond : Option String := none
  name : Option String := none
  needs : Option (List String) := none
  runsOn : RunsOn
  steps : List Step
  env : Option (List (String × String)) := none
deriving DecidableEq, Repr

/-- model.ts `GHWorkflowJobUsesWorkflow`; the type carries no `env` field,
as in the source. -/
structure UsesJob where
  ifCond : Option String := none
  name : Option String := none
  needs : Option (List String) := none
  uses : WfCallSpec
  withArgs : Option (List (String × Scalar)) := none
deriving DecidableEq, Repr

/-- model.ts `GHWorkflowJob`. -/
inductive Job where
  | steps (j : StepsJob)
  | uses (j : UsesJob)
deriving DecidableEq, Repr

/-- model.ts `GHWorkflow`; `onEv` models the `on` field (a Lean keyword). -/
structure Workflow where
  onEv : OnEvents
  jobs : List (String × Job)
deriving DecidableEq, Repr

/-- readWorkflow.ts `GHWorkflowReadResult`. -/
structure ReadResult where
  workflow : Workflow
  schemaErrors : List SchemaError
deriving DecidableEq, Repr

/-- Head character class of the id grammar `^[_a-z]`. -/
def idHeadChar (c : Char) : Bool := c = '_' || ('a' ≤ c && c ≤ 'z')

/-- Tail character class of the id grammar `[_\-a-z0-9]`. -/
def idTailChar (c : Char) : Bool :=
  c = '_' || c = '-' || ('a' ≤ c && c ≤ 'z') || ('0' ≤ c && c ≤ '9')

/-- readWorkflow.ts `jobAndStepIdRegex` test `^[_a-z]{1}[_\-a-z\d]+$`. -/
def jobAndStepIdTest (s : String) : Bool :=
  match s.data with
  | [] => false
  | c :: rest => idHeadChar c && !rest.isEmpty && rest.all idTailChar

/-- Extraction of the string payloads of a list known to hold only strings. -/
def asStrings (items : List Yaml) : List String :=
  items.map (fun y => match y with | .str s => s | _ => "")

/-- Backquoted interpolation helper used by the unsupported-with-`uses`
messages. -/
def bq (s : String) : String := "`" ++ s ++ "`"

/-- readWorkflow.ts `UNSUPPORTED_PROPS.JOB_WITH_USES` and
`.STEP_WITH_USES` (both `['env']`). -/
def UNSUPPORTED_WITH_USES : List String := ["env"]

/-- readWorkflow.ts `checkUnsupportedWorkflowKeys`. -/
def checkUnsupportedWorkflowKeys (wfYaml : List (String × Yaml)) :
    List SchemaError :=
  (wfYaml.map Prod.fst).filterMap (fun k =>
    if ["concurrency", "defaults", "env", "jobs", "name", "permissions", "on",
        "run-name"].contains k
    then none
    else some { message := "Workflow has an unsupported field `" ++ k ++ "`",
                object := "workflow", path := k })

/-- readWorkflow.ts `checkUnsupportedJobKeys`. -/
def checkUnsupportedJobKeys (jobYaml : List (String × Yaml)) (jobId : String) :
    List SchemaError :=
  (jobYaml.map Prod.fst).filterMap (fun k =>
    if ["concurrency", "container", "continue-on-error", "env", "environment",
        "defaults", "if", "name", "needs", "outputs", "permissions", "runs-on",
        "secrets", "services", "strategy", "steps", "timeout-minutes", "uses",
        "with"].contains k
    then none
    else some { message := "Job `" ++ jobId ++ "` has an unsupported field `" ++ k ++ "`",
                object := "job", path := "jobs." ++ jobId ++ "." ++ k })

/-- readWorkflow.ts `checkUnsupportedDefaultsKeys` (workflow-level when
`jobId?` is `none`, job-level otherwise). -/
def checkUnsupportedDefaultsKeys (defaultsYaml : List (String × Yaml))
    (jobId? : Option String) : List SchemaError :=
  defaultsYaml.foldl (fun errs e =>
    if e.1 = "run" then
      match e.2 with
      | .map runEntries =>
        errs ++ (runEntries.map Prod.fst).filterMap (fun runK =>
          if runK = "shell" || runK = "working-directory" then none
          else some (match jobId? with
            | some jobId =>
              { message := "Job `" ++ jobId ++ "` defaults has an unsupported field `run." ++ runK ++ "`",
                object := "job",
                path := "jobs." ++ jobId ++ ".defaults.run." ++ runK }
            | none =>
              { message := "Workflow defaults has an unsupported field `run." ++ runK ++ "`",
                object := "workflow", path := "defaults.run." ++ runK }))
      | _ =>
        errs ++ [match jobId? with
          | some jobId =>
            { message := "Must be an object of job run defaults config",
              object := "job", path := "jobs." ++ jobId ++ ".defaults" }
          | none =>
            { message := "Must be an object of workflow run defaults config",
              object := "workflow", path := "defaults" }]
    else
      errs ++ [match jobId? with
        | some jobId =>
          { message := "Job `" ++ jobId ++ "` defaults has an unsupported field `" ++ e.1 ++ "`",
            object := "job", path := "jobs." ++ jobId ++ ".defaults." ++ e.1 }
        | none =>
          { message := "Workflow defaults has an unsupported field `" ++ e.1 ++ "`",
            object := "workflow", path := "defaults." ++ e.1 }]) []

/-- readWorkflow.ts `checkUnsupportedJobContainerKeys` (also used for
services when `serviceId?` is set). -/
def checkUnsupportedJobContainerKeys (containerYaml : List (String × Yaml))
    (jobId : String) (serviceId? : Option String) : List SchemaError :=
  (containerYaml.map Prod.fst).filterMap (fun k =>
    if ["credentials", "env", "image", "options", "ports", "volumes"].contains k
    then none
    else some (match serviceId? with
      | some serviceId =>
        { message := "Service `" ++ serviceId ++ "` of job `" ++ jobId ++ "` has an unsupported field `" ++ k ++ "`",
          object := "job",
          path := "jobs." ++ jobId ++ ".services." ++ serviceId ++ "." ++ k }
      | none =>
        { message := "Container of job `" ++ jobId ++ "` has an unsupported field `" ++ k ++ "`",
          object := "job", path := "jobs." ++ jobId ++ ".container." ++ k }))

/-- readWorkflow.ts `checkUnsupportedJobStrategyKeys`. -/
def checkUnsupportedJobStrategyKeys (strategyYaml : List (String × Yaml))
    (jobId : String) : List SchemaError :=
  (strategyYaml.map Prod.fst).filterMap (fun k =>
    if ["fail-fast", "matrix", "max-parallel"].contains k then none
    else some { message := "Strategy of job `" ++ jobId ++ "` has an unsupported field `" ++ k ++ "`",
                object := "job", path := "jobs." ++ jobId ++ ".strategy." ++ k })

/-- Path of step index `i` in job `jobId`. -/
def stepPath (jobId : String) (i : Nat) : String :=
  "jobs." ++ jobId ++ ".steps[" ++ toString i ++ "]"

/-- readWorkflow.ts `checkUnsupportedJobStepKeys`. -/
def checkUnsupportedJobStepKeys (stepYaml : List (String × Yaml))
    (jobId : String) (stepIndex : Nat) : List SchemaError :=
  (stepYaml.map Prod.fst).filterMap (fun k =>
    if ["env", "continue-on-error", "id", "if", "name", "run", "shell",
        "timeout-minutes", "uses", "with", "working-directory"].contains k
    then none
    else some { message := "Step of job `" ++ jobId ++ "` has an unsupported field `" ++ k ++ "`",
                object := "step", path := stepPath jobId stepIndex ++ "." ++ k })

/-- The filesystem-path test `^\.?\.\/` of the specifier grammars. -/
def fsSpecTest (s : String) : Bool := jsStartsWith s "./" || jsStartsWith s "../"

/-- The workflow filename test `ya?ml$`. -/
def ymlSuffixTest (s : String) : Bool := jsEndsWith s "yaml" || jsEndsWith s "yml"

/-- readWorkflow.ts `parseJobUsesWorkflowValue`. -/
def parseJobUsesWorkflowValue (v : Yaml) (jobId : String) :
    Except SchemaError WfCallSpec :=
  match v with
  | .str s =>
    if fsSpecTest s then .ok (.filesystem s)
    else
      let splitOnRef := (jsSplitChar s '@').take 2
      let hd := splitOnRef.headD ""
      let splitPaths := jsSplitChar hd '/' 
      if splitPaths.length ≠ 5 ∨ splitPaths.getD 2 "" ≠ ".github" ∨
          splitPaths.getD 3 "" ≠ "workflows" ∨
          ¬ ymlSuffixTest (splitPaths.getD 4 "") then
        .error { message := "Must be a resolvable GitHub workflow YAML file in this repository with `./.github/workflows` or an external repository with `owner/name/.github/workflows` as a prefix",
                 object := "job", path := "jobs." ++ jobId ++ ".uses" }
      else if splitOnRef.length = 1 then
        .error { message := "Must specify GitHub workflow ref in format `" ++ hd ++ "@\x7bref\x7d`",
                 object := "job", path := "jobs." ++ jobId ++ ".uses" }
      else
        .ok (.repository (splitPaths.getD 0 "") (splitPaths.getD 1 "")
          (splitPaths.getD 4 "") (splitOnRef.getD 1 "") s)
  | _ =>
    .error { message := "`uses` must be a string", object := "job",
             path := "jobs." ++ jobId ++ ".uses" }

/-- readWorkflow.ts `parseStepUsesActionValue`. -/
def parseStepUsesActionValue (v : Yaml) (jobId : String) (stepIndex : Nat) :
    Except SchemaError ActionSpec :=
  match v with
  | .str s =>
    if jsStartsWith s "docker://" then .ok (.docker s)
    else if fsSpecTest s then .ok (.filesystem s)
    else
      let splitOnRef := (jsSplitChar s '@').take 2
      let hd := splitOnRef.headD ""
      let splitPaths := jsSplitChar hd '/' 
      if splitPaths.length < 2 then
        .error { message := "Must be a resolvable GitHub Action",
                 object := "step", path := stepPath jobId stepIndex ++ ".uses" }
      else if splitOnRef.length = 1 then
        .error { message := "Must specify GitHub Action ref in format `" ++ hd ++ "@\x7bref\x7d`",
                 object := "step", path := stepPath jobId stepIndex ++ ".uses" }
      else
        .ok (.repository (splitPaths.getD 0 "") (splitPaths.getD 1 "")
          (if splitPaths.length > 2
           then some (String.intercalate "/" (splitPaths.drop 2))
           else none)
          (splitOnRef.getD 1 "") s)
  | _ =>
    .error { message := "`uses` must be a string", object := "step",
             path := stepPath jobId stepIndex ++ ".uses" }

/-- Failure of the jobs/steps parsers: a thrown `SchemaError` (caught by
`collectJobs`), or one of the two plain `Error`s of `collectSteps` that
escape the reader. -/
inductive StepFail where
  | schema (e : SchemaError)
  | internal (msg : String)
deriving DecidableEq, Repr

mutual

/-- JS template-literal stringification of a YAML tree value (`null` prints
as "null", arrays join their elements with commas rendering null elements
empty, plain objects print as "[object Object]"). -/
def jsTemplate : Yaml → String
  | .nul => "null"
  | .bool v => if v then "true" else "false"
  | .num r => r
  | .str s => s
  | .map _ => "[object Object]"
  | .arr items => String.intercalate "," (jsTemplateElems items)

/-- Array elements under JS `Array.prototype.join`: null renders empty. -/
def jsTemplateElems : List Yaml → List String
  | [] => []
  | .nul :: rest => "" :: jsTemplateElems rest
  | other :: rest => jsTemplate other :: jsTemplateElems rest

end

/-- The `id` field of a step (readWorkflow.ts `collectSteps`). -/
def parseStepId (jobId : String) (i : Nat) (es : List (String × Yaml)) :
    Except SchemaError (Option String) :=
  match lookupKey es "id" with
  | none => .ok none
  | some (.str idS) =>
    if jobAndStepIdTest idS then .ok (some idS)
    else .error { message := "Step id " ++ idS ++ " must be a string starting with a letter or _ and only contain alphanumeric _ and -",
                  object := "step", path := stepPath jobId i ++ ".id" }
  | some other =>
    .error { message := "Step id " ++ jsTemplate other ++ " must be a string starting with a letter or _ and only contain alphanumeric _ and -",
             object := "step", path := stepPath jobId i ++ ".id" }

/-- The `if` field of a step. -/
def parseStepIf (jobId : String) (i : Nat) (es : List (String × Yaml)) :
    Except SchemaError (Option String) :=
  match lookupKey es "if" with
  | none => .ok none
  | some v =>
    if isStringLike v then .ok (some (convertStringLike v))
    else .error { message := "`if` must be a string", object := "step",
                  path := stepPath jobId i ++ ".if" }

/-- The `name` field of a step. -/
def parseStepName (jobId : String) (i : Nat) (es : List (String × Yaml)) :
    Except SchemaError (Option String) :=
  match lookupKey es "name" with
  | none => .ok none
  | some v =>
    if isStringLike v then .ok (some (convertStringLike v))
    else .error { message := "`name` must be a string", object := "step",
                  path := stepPath jobId i ++ ".name" }

/-- The `run` value of a Run-step (only invoked when the key is present). -/
def parseStepRun (jobId : String) (i : Nat) (es : List (String × Yaml)) :
    Except SchemaError String :=
  match lookupKey es "run" with
  | some (.str runS) => .ok runS
  | _ => .error { message := "`run` must be a string", object := "step",
                  path := stepPath jobId i ++ ".run" }

/-- The `env` map of a Run-step. -/
def parseStepEnv (jobId : String) (i : Nat) (es : List (String × Yaml)) :
    Except SchemaError (Option (List (String × String))) :=
  match lookupKey es "env" with
  | none => .ok none
  | some (.map envEntries) =>
    if envEntries.all (fun e => isStringLike e.2) then
      .ok (some (convertMapOfStringLikes envEntries))
    else .error { message := "`env` must be a map of strings", object := "step",
                  path := stepPath jobId i ++ ".env" }
  | some _ =>
    .error { message := "`env` must be a map of strings", object := "step",
             path := stepPath jobId i ++ ".env" }

/-- The `with` map of a Uses-step. -/
def parseStepWith (jobId : String) (i : Nat) (es : List (String × Yaml)) :
    Except SchemaError (Option (List (String × Scalar))) :=
  match lookupKey es "with" with
  | none => .ok none
  | some (.map withEntries) =>
    if withEntries.all (fun e => isStringLike e.2) then
      .ok (some (withEntries.map (fun e => (e.1, Scalar.ofYaml e.2))))
    else .error { message := "`with` must be a map of booleans, numbers and strings",
                  object := "step", path := stepPath jobId i ++ ".with" }
  | some _ =>
    .error { message := "`with` must be a map of booleans, numbers and strings",
             object := "step", path := stepPath jobId i ++ ".with" }

/-- One step of readWorkflow.ts `collectSteps` (without the preceding
unsupported-key pass, which is accumulated by the caller): common fields
first, then the `run`/`uses` discrimination whose both/neither cases raise
the internal `Error`s. -/
def parseStep (jobId : String) (i : Nat) (es : List (String × Yaml)) :
    Except StepFail Step :=
  match parseStepId jobId i es with
  | .error e => .error (.schema e)
  | .ok id? =>
    match parseStepIf jobId i es with
    | .error e => .error (.schema e)
    | .ok ifCond? =>
      match parseStepName jobId i es with
      | .error e => .error (.schema e)
      | .ok name? =>
        if hasKey es "run" && hasKey es "uses" then
          .error (.internal "step cannot have run and uses")
        else if hasKey es "run" then
          match parseStepRun jobId i es with
          | .error e => .error (.schema e)
          | .ok runS =>
            match parseStepEnv jobId i es with
            | .error e => .error (.schema e)
            | .ok env? =>
              .ok (.run { id := id?, ifCond := ifCond?, name := name?,
                          run := runS, env := env? })
        else if hasKey es "uses" then
          match parseStepUsesActionValue ((lookupKey es "uses").getD .nul) jobId i with
          | .error e => .error (.schema e)
          | .ok usesSpec =>
            match parseStepWith jobId i es with
            | .error e => .error (.schema e)
            | .ok with? =>
              let unsupported := UNSUPPORTED_WITH_USES.filter (fun u => hasKey es u)
              if !unsupported.isEmpty then
                .error (.schema { message := String.intercalate ", " (unsupported.map bq) ++ " cannot be used with `uses`",
                                  object := "step", path := stepPath jobId i })
              else
                .ok (.uses { id := id?, ifCond := ifCond?, name := name?,
                             uses := usesSpec, withArgs := with? })
        else .error (.internal "step must have run or uses")

/-- readWorkflow.ts `collectSteps` from index `i` on: the per-step
unsupported-key pass accumulates, a thrown failure aborts the remaining
steps but keeps the already-accumulated errors. -/
def stepEntries : Yaml → List (String × Yaml)
  | .map m => m
  | _ => []

def collectStepsFrom (jobId : String) (i : Nat) :
    List Yaml → List SchemaError × Except StepFail (List Step)
  | [] => ([], .ok [])
  | stY :: rest =>
    let es := stepEntries stY
    let errs0 := checkUnsupportedJobStepKeys es jobId i
    match parseStep jobId i es with
    | .error f => (errs0, .error f)
    | .ok step =>
      let (errsR, r) := collectStepsFrom jobId (i + 1) rest
      (errs0 ++ errsR, r.map (step :: ·))

/-- readWorkflow.ts `collectSteps`. -/
def collectSteps (jobId : String) (stepsYaml : List Yaml) :
    List SchemaError × Except StepFail (List Step) :=
  collectStepsFrom jobId 0 stepsYaml

end ModelT

namespace ModelT

/-- Generic association-list lookup for model maps (jobs, inputs, `with`). -/
def alookup {α : Type} (l : List (String × α)) (k : String) : Option α :=
  match l with
  | [] => none
  | (k2, v) :: rest => if k2 = k then some v else alookup rest k

/-- Path `jobs.<id>`. -/
def jobPath (jobId : String) : String := "jobs." ++ jobId

/-- The non-throwing whitelist passes run on a job body before the
steps/uses discrimination (readWorkflow.ts `collectJobs` lines for
`container`, `defaults`, `services` and `strategy`). -/
def parseJobPrelimErrs (jobId : String) (body : List (String × Yaml)) :
    List SchemaError :=
  checkUnsupportedJobKeys body jobId
  ++ (match lookupKey body "container" with
      | none => []
      | some (.map m) => checkUnsupportedJobContainerKeys m jobId none
      | some _ => [{ message := "Must be an object of job container config",
                     object := "job", path := jobPath jobId ++ ".container" }])
  ++ (match lookupKey body "defaults" with
      | none => []
      | some (.map m) => checkUnsupportedDefaultsKeys m (some jobId)
      | some _ => [{ message := "Must be an object of job defaults config",
                     object := "job", path := jobPath jobId ++ ".defaults" }])
  ++ (match lookupKey body "services" with
      | none => []
      | some (.map svcs) =>
        svcs.foldl (fun errs sv =>
          errs ++ (match sv.2 with
            | .map m => checkUnsupportedJobContainerKeys m jobId (some sv.1)
            | _ => [{ message := "Must be an object of job services configs",
                      object := "job",
                      path := jobPath jobId ++ ".services." ++ sv.1 }])) []
      | some _ => [{ message := "Must be an object of job services configs",
                     object := "job", path := jobPath jobId ++ ".services" }])
  ++ (match lookupKey body "strategy" with
      | none => []
      | some (.map m) => checkUnsupportedJobStrategyKeys m jobId
      | some _ => [{ message := "Must be an object of job strategy config",
                     object := "job", path := jobPath jobId ++ ".strategy" }])

/-- The `if` field of a job. -/
def parseJobIf (jobId : String) (body : List (String × Yaml)) :
    Except SchemaError (Option String) :=
  match lookupKey body "if" with
  | none => .ok none
  | some v =>
    if isStringLike v then .ok (some (convertStringLike v))
    else .error { message := "`if` must be a string", object := "job",
                  path := jobPath jobId ++ ".if" }

/-- The `name` field of a job. -/
def parseJobName (jobId : String) (body : List (String × Yaml)) :
    Except SchemaError (Option String) :=
  match lookupKey body "name" with
  | none => .ok none
  | some v =>
    if isStringLike v then .ok (some (convertStringLike v))
    else .error { message := "`name` must be a string", object := "job",
                  path := jobPath jobId ++ ".name" }

/-- The `needs` field of a job (scalar-or-sequence normalization). -/
def parseJobNeeds (jobId : String) (body : List (String × Yaml)) :
    Except SchemaError (Option (List String)) :=
  match lookupKey body "needs" with
  | none => .ok none
  | some v =>
    if isStringLike v then .ok (some [convertStringLike v])
    else
      match v with
      | .arr items =>
        if items.all isStringLike then .ok (some (items.map convertStringLike))
        else .error { message := "`needs` must be a string or array of strings",
                      object := "job", path := jobPath jobId ++ ".needs" }
      | _ => .error { message := "`needs` must be a string or array of strings",
                      object := "job", path := jobPath jobId ++ ".needs" }

/-- The common `if`, `name`, `needs` fields parsed after the job variant
(readWorkflow.ts `collectJobs` tail). -/
def parseJobCommon (jobId : String) (body : List (String × Yaml)) :
    Except SchemaError (Option String × Option String × Option (List String)) :=
  match parseJobIf jobId body with
  | .error e => .error e
  | .ok if? =>
    match parseJobName jobId body with
    | .error e => .error e
    | .ok name? =>
      match parseJobNeeds jobId body with
      | .error e => .error e
      | .ok needs? => .ok (if?, name?, needs?)

/-- The `runs-on` value chain of readWorkflow.ts `collectJobs`: a non-string
non-array non-map value falls through leaving `runsOn` unset (`none`). -/
def parseRunsOnValue (jobId : String) (v : Yaml) :
    Except SchemaError (Option RunsOn) :=
  match v with
  | .str s => .ok (some (.image s))
  | .arr items =>
    if items.all isString && !items.isEmpty then .ok (some (.labels (asStrings items)))
    else .ok none
  | .map m =>
    if m.length = 2 && hasKey m "group" && hasKey m "labels" then
      match lookupKey m "group" with
      | some (.str g) =>
        (match lookupKey m "labels" with
         | some (.str l) => .ok (some (.group g [l]))
         | some (.arr items) =>
           if items.all isString then .ok (some (.group g (asStrings items)))
           else .error { message := "Must be a string or array of strings",
                         object := "job", path := jobPath jobId ++ ".runs-on.labels" }
         | _ => .error { message := "Must be a string or array of strings",
                         object := "job", path := jobPath jobId ++ ".runs-on.labels" })
      | _ => .error { message := "Must be a string", object := "job",
                      path := jobPath jobId ++ ".runs-on.group" }
    else
      .error { message := "`runs-on` must only have `group` and `labels` for querying runners",
               object := "job", path := jobPath jobId ++ ".runs-on" }
  | _ => .ok none

/-- The `env` map of a Steps-kind job. -/
def parseJobEnv (jobId : String) (body : List (String × Yaml)) :
    Except SchemaError (Option (List (String × String))) :=
  match lookupKey body "env" with
  | none => .ok none
  | some (.map envEntries) =>
    if envEntries.all (fun e => isStringLike e.2) then
      .ok (some (convertMapOfStringLikes envEntries))
    else .error { message := "`env` must be a map of strings", object := "job",
                  path := jobPath jobId ++ ".env" }
  | some _ =>
    .error { message := "`env` must be a map of strings", object := "job",
             path := jobPath jobId ++ ".env" }

/-- The `runs-on` requirement of a Steps-kind job: the value chain followed
by the mandatory-presence check. -/
def parseJobRunsOn (jobId : String) (body : List (String × Yaml)) :
    Except SchemaError RunsOn :=
  match (match lookupKey body "runs-on" with
         | none => Except.ok (none : Option RunsOn)
         | some v => parseRunsOnValue jobId v) with
  | .error e => .error e
  | .ok (some r) => .ok r
  | .ok none =>
    .error { message := "Must be a runner image name, array of runner labels or map defining `group` and `labels`",
             object := "job", path := jobPath jobId ++ ".runs-on" }

/-- The `with` map of a Uses-kind job. -/
def parseJobWith (jobId : String) (body : List (String × Yaml)) :
    Except SchemaError (Option (List (String × Scalar))) :=
  match lookupKey body "with" with
  | none => .ok none
  | some (.map withEntries) =>
    if withEntries.all (fun e => isStringLike e.2) then
      .ok (some (withEntries.map (fun e => (e.1, Scalar.ofYaml e.2))))
    else .error { message := "`with` must be a map of booleans, numbers and strings",
                  object := "job", path := jobPath jobId ++ ".with" }
  | some _ =>
    .error { message := "`with` must be a map of booleans, numbers and strings",
             object := "job", path := jobPath jobId ++ ".with" }

/-- The Steps-kind tail of one job: `env`, `runs-on`, then common fields. -/
def parseStepsJobTail (jobId : String) (body : List (String × Yaml))
    (steps : List Step) : Except StepFail Job :=
  match parseJobEnv jobId body with
  | .error e => .error (.schema e)
  | .ok env? =>
    match parseJobRunsOn jobId body with
    | .error e => .error (.schema e)
    | .ok runsOn =>
      match parseJobCommon jobId body with
      | .error e => .error (.schema e)
      | .ok common =>
        .ok (Job.steps { ifCond := common.1, name := common.2.1,
                         needs := common.2.2, runsOn := runsOn,
                         steps := steps, env := env? })

/-- The Uses-kind branch of one job: specifier, `with`, the
unsupported-with-`uses` check, then common fields. -/
def parseUsesJobBranch (jobId : String) (body : List (String × Yaml)) :
    Except StepFail Job :=
  match parseJobUsesWorkflowValue ((lookupKey body "uses").getD .nul) jobId with
  | .error e => .error (.schema e)
  | .ok usesSpec =>
    match parseJobWith jobId body with
    | .error e => .error (.schema e)
    | .ok with? =>
      let unsupported := UNSUPPORTED_WITH_USES.filter (fun u => hasKey body u)
      if !unsupported.isEmpty then
        .error (.schema { message := String.intercalate ", " (unsupported.map bq) ++ " cannot be used with `uses`",
                          object := "job", path := jobPath jobId })
      else
        match parseJobCommon jobId body with
        | .error e => .error (.schema e)
        | .ok common =>
          .ok (Job.uses { ifCond := common.1, name := common.2.1,
                          needs := common.2.2, uses := usesSpec, withArgs := with? })

/-- One job of readWorkflow.ts `collectJobs`: accumulated non-fatal errors
paired with the job outcome (a thrown `SchemaError` or one of the internal
step `Error`s). -/
def parseJob (jobId : String) (jobYaml : Yaml) :
    List SchemaError × Except StepFail Job :=
  if ¬ jobAndStepIdTest jobId then
    ([], .error (.schema { message := "Job id " ++ jobId ++ " must start with a letter or _ and only contain alphanumeric _ and -",
                           object := "job", path := jobPath jobId }))
  else
    match jobYaml with
    | .map body =>
      let errs0 := parseJobPrelimErrs jobId body
      if hasKey body "steps" && hasKey body "uses" then
        (errs0, .error (.schema { message := "Cannot define both `steps` and `uses` for a job",
                                  object := "job", path := jobPath jobId }))
      else if hasKey body "steps" then
        let stepsY := (lookupKey body "steps").getD .nul
        if isArrayOfMaps stepsY then
          let items := match stepsY with | .arr its => its | _ => []
          let (stepErrs, stepsR) := collectSteps jobId items
          match stepsR with
          | .error f => (errs0 ++ stepErrs, .error f)
          | .ok steps => (errs0 ++ stepErrs, parseStepsJobTail jobId body steps)
        else
          (errs0, .error (.schema { message := "Must be an array of step configurations",
                                    object := "job", path := jobPath jobId ++ ".steps" }))
      else if hasKey body "uses" then
        (errs0, parseUsesJobBranch jobId body)
      else
        (errs0, .error (.schema { message := "Must define `steps` or `uses` for a job",
                                  object := "job", path := jobPath jobId }))
    | other =>
      ([], .error (.schema { message := "Cannot have a " ++ typeofYaml other ++ " value for a job",
                             object := "job", path := jobPath jobId }))

/-- Iteration of readWorkflow.ts `collectJobs` over the job entries: a
caught `SchemaError` skips the job, an internal step `Error` escapes. -/
def collectJobsFrom :
    List (String × Yaml) → List SchemaError × Except String (List (String × Job))
  | [] => ([], .ok [])
  | e :: rest =>
    let (errsJ, r) := parseJob e.1 e.2
    match r with
    | .error (.internal m) => (errsJ, .error m)
    | .error (.schema se) =>
      let (errsR, rr) := collectJobsFrom rest
      (errsJ ++ [se] ++ errsR, rr)
    | .ok job =>
      let (errsR, rr) := collectJobsFrom rest
      (errsJ ++ errsR, rr.map ((e.1, job) :: ·))

/-- readWorkflow.ts `collectJobs`. -/
def collectJobs (wfYaml : List (String × Yaml)) :
    List SchemaError × Except String (List (String × Job)) :=
  match lookupKey wfYaml "jobs" with
  | none =>
    ([{ message := "No jobs defined in `jobs`", object := "workflow", path := "jobs" }],
     .ok [])
  | some (.map entries) =>
    if entries.isEmpty then
      ([{ message := "No jobs defined in `jobs`", object := "workflow", path := "jobs" }],
       .ok [])
    else collectJobsFrom entries
  | some _ =>
    ([{ message := "Type of jobs is incorrect at `jobs`", object := "workflow",
        path := "jobs" }],
     .ok [])

/-- Failure of readWorkflow.ts `readWorkflowModel`: the begin-again
`TypeError` of `readYaml`, or an internal `Error` escaped from
`collectSteps`. -/
inductive RdFail where
  | typeErr (msg : String)
  | internalErr (msg : String)
deriving DecidableEq, Repr

/-- The `defaults` pass at the end of readWorkflow.ts `readWorkflowModel`. -/
def workflowDefaultsErrs (wfYaml : List (String × Yaml)) : List SchemaError :=
  match lookupKey wfYaml "defaults" with
  | none => []
  | some (.map m) => checkUnsupportedDefaultsKeys m none
  | some _ =>
    [{ message := "Must be an object of workflow defaults config",
       object := "workflow", path := "defaults" }]

/-- readWorkflow.ts `readWorkflowModel`. -/
def readWorkflowModel (y : Yaml) : Except RdFail ReadResult :=
  match readYaml y with
  | .error msg => .error (.typeErr msg)
  | .ok wfYaml =>
    let (onE, errsOn) := collectEventCfgs wfYaml
    match collectJobs wfYaml with
    | (_, .error msg) => .error (.internalErr msg)
    | (errsJobs, .ok jobs) =>
      .ok { workflow := { onEv := onE, jobs := jobs },
            schemaErrors := errsOn ++ errsJobs ++ checkUnsupportedWorkflowKeys wfYaml
              ++ workflowDefaultsErrs wfYaml }

end ModelT

namespace ModelT

/-! The analyzer of src/lib/workflowAnalyzer.ts works over the model
generation in which a Uses-kind job carries its raw `uses` string
(model.ts `GHWorkflowJobUsesWorkflow.uses: string`) while steps carry
parsed action specifiers. -/

/-- readAction.ts `GHActionInput`: `defaultVal` models `default`, whose
value may be a string or `null`; the analyzer only tests its presence. -/
structure GHActionInput where
  description : String := ""
  required : Option Bool := none
  defaultVal : Option (Option String) := none
  deprecationMessage : Option String := none
deriving DecidableEq, Repr

/-- model.ts `GHAction` as read by the analyzer. -/
structure GHAction where
  inputs : Option (List (String × GHActionInput)) := none
deriving DecidableEq, Repr

/-- The analyzer-era Uses-kind step (parsed action specifier, optional
`with`, optional `id` and `name` used for the error label). -/
structure AUsesStep where
  id : Option String := none
  name : Option String := none
  uses : ActionSpec
  withArgs : Option (List (String × Scalar)) := none
deriving DecidableEq, Repr

/-- Analyzer-era step. -/
inductive AStep where
  | run
  | uses (s : AUsesStep)
deriving DecidableEq, Repr

/-- The analyzer-era Uses-kind job: `uses` is the raw string. -/
structure AUsesJob where
  uses : String
  withArgs : Option (List (String × Scalar)) := none
deriving DecidableEq, Repr

/-- Analyzer-era job. -/
inductive AJob where
  | steps (steps : List AStep)
  | uses (j : AUsesJob)
deriving DecidableEq, Repr

/-- Analyzer-era workflow: `path` models `__PATH` set by the cache. -/
structure AWorkflow where
  path : Option String := none
  onEv : OnEvents
  jobs : List (String × AJob)
deriving DecidableEq, Repr

/-- workflowAnalyzer.ts `GHWorkflowError` (code, workflow and message; the
remaining metadata is not read by the analyzed control flow). -/
structure GHErr where
  code : String
  workflow : String
  message : String
deriving DecidableEq, Repr

/-- A failure inside `#analyzeJob`: a thrown `RuntimeError` (wrapped by
`analyzeWorkflow`), or a propagating `GHWorkflowError`. -/
inductive AnalyzeErr where
  | runtime (msg : String)
  | gh (e : GHErr)
deriving DecidableEq, Repr

/-- workflowAnalyzer.ts `VALID_DATA_TYPES`. -/
def VALID_DATA_TYPES : InputType → List String
  | .boolean => ["boolean"]
  | .number => ["number"]
  | .string => ["boolean", "number", "string"]
  | .choice => ["boolean", "number", "string"]
  | .environment => ["string"]

/-- JS regex `.`: any character except a line terminator. -/
def jsDotChar (c : Char) : Bool := c ≠ '\n' && c ≠ '\r'

/-- Start index of the last occurrence of two consecutive right braces. -/
def lastCloseAt : List Char → Option Nat
  | [] => none
  | [_] => none
  | c1 :: c2 :: rest =>
    match lastCloseAt (c2 :: rest) with
    | some j => some (j + 1)
    | none => if c1 = rcub && c2 = rcub then some 0 else none

/-- A match of `/\$\x7b\x7b.*\x7d\x7d/` anchored at the head of the list:
on success, the remainder after the greedy match (which extends to the last
double right brace on the line). -/
def tryExprHere : List Char → Option (List Char)
  | c :: c1 :: c2 :: tail =>
    if c = '$' && c1 = lcub && c2 = lcub then
      (lastCloseAt (tail.takeWhile jsDotChar)).map (fun j => tail.drop (j + 2))
    else none
  | _ => none

/-- JS `s.replace(/\$\x7b\x7b.*\x7d\x7d/, "")`: remove the leftmost match,
`none` when the regex does not match. -/
def replaceFirstExpr : List Char → Option (List Char)
  | [] => none
  | c :: rest =>
    match tryExprHere (c :: rest) with
    | some remainder => some remainder
    | none => (replaceFirstExpr rest).map (c :: ·)

theorem lastCloseAt_le : ∀ (l : List Char) (j : Nat),
    lastCloseAt l = some j → j + 2 ≤ l.length
  | [], j, h => by simp [lastCloseAt] at h
  | [c], j, h => by simp [lastCloseAt] at h
  | c1 :: c2 :: rest, j, h => by
    rw [lastCloseAt] at h
    cases hr : lastCloseAt (c2 :: rest) with
    | some j2 =>
      rw [hr] at h
      have hj : j2 + 1 = j := by simpa using h
      have hrec := lastCloseAt_le (c2 :: rest) j2 hr
      simp only [List.length_cons] at hrec ⊢
      omega
    | none =>
      rw [hr] at h
      by_cases hb : (c1 = rcub && c2 = rcub) = true
      · rw [if_pos hb] at h
        have hj : j = 0 := by simpa using h.symm
        subst hj
        simp only [List.length_cons]
        omega
      · rw [if_neg hb] at h
        simp at h

theorem takeWhile_len_le {α : Type} (p : α → Bool) :
    ∀ l : List α, (l.takeWhile p).length ≤ l.length := by
  intro l
  induction l with
  | nil => simp
  | cons a rest ih =>
    cases hp : p a <;> simp [List.takeWhile, hp] <;> omega

theorem tryExprHere_shrinks {cs out : List Char} (h : tryExprHere cs = some out) :
    out.length + 5 ≤ cs.length := by
  match cs, h with
  | [], h => simp [tryExprHere] at h
  | [c], h => simp [tryExprHere] at h
  | [c, c1], h => simp [tryExprHere] at h
  | c :: c1 :: c2 :: tail, h => ?_
  rw [tryExprHere] at h
  split at h
  case isTrue hbr =>
    cases hj : lastCloseAt (tail.takeWhile jsDotChar) with
    | none => rw [hj] at h; simp at h
    | some j =>
      rw [hj] at h
      have hout : tail.drop (j + 2) = out := by simpa using h
      have hle : j + 2 ≤ (tail.takeWhile jsDotChar).length :=
        lastCloseAt_le _ _ hj
      have htk : (tail.takeWhile jsDotChar).length ≤ tail.length :=
        takeWhile_len_le _ _
      have hdl : (tail.drop (j + 2)).length = tail.length - (j + 2) :=
        List.length_drop _ _
      rw [← hout]
      simp only [List.length_cons, hdl]
      omega
  case isFalse => simp at h

theorem replaceFirstExpr_shrinks {cs out : List Char}
    (h : replaceFirstExpr cs = some out) : out.length < cs.length := by
  induction cs generalizing out with
  | nil => simp [replaceFirstExpr] at h
  | cons c rest ih =>
    rw [replaceFirstExpr] at h
    cases ht : tryExprHere (c :: rest) with
    | some rem =>
      rw [ht] at h
      simp only [Option.some.injEq] at h
      subst h
      have := tryExprHere_shrinks ht
      omega
    | none =>
      rw [ht] at h
      cases hr : replaceFirstExpr rest with
      | none => rw [hr] at h; simp at h
      | some out2 =>
        rw [hr] at h
        have hco : c :: out2 = out := by simpa using h
        have := ih hr
        rw [← hco]
        simp only [List.length_cons]
        omega

/-- The `while` loop of workflowAnalyzer.ts `reduceExpressionsFromString`,
with fuel for structural recursion: replace the leftmost regex match until
none remains. -/
def reduceExprLoopFuel : Nat → List Char → List Char
  | 0, cs => cs
  | fuel + 1, cs =>
    match replaceFirstExpr cs with
    | none => cs
    | some cs2 => reduceExprLoopFuel fuel cs2

/-- The loop with enough fuel to reach the fixed point (each replacement
strictly shrinks the list). -/
def reduceExprLoop (cs : List Char) : List Char :=
  reduceExprLoopFuel cs.length cs

theorem reduceExprLoopFuel_fix : ∀ (fuel : Nat) (cs : List Char),
    cs.length ≤ fuel → replaceFirstExpr (reduceExprLoopFuel fuel cs) = none := by
  intro fuel
  induction fuel with
  | zero =>
    intro cs hlen
    have : cs = [] := List.length_eq_zero.mp (Nat.le_zero.mp hlen)
    subst this
    simp [reduceExprLoopFuel, replaceFirstExpr]
  | succ fuel ih =>
    intro cs hlen
    rw [reduceExprLoopFuel]
    cases hr : replaceFirstExpr cs with
    | none => exact hr
    | some cs2 =>
      have := replaceFirstExpr_shrinks hr
      exact ih cs2 (by omega)

/-- With the chosen fuel, the loop ends at a list the regex no longer
matches: this is the exit condition of the source's `while` loop. -/
theorem reduceExprLoop_fix (cs : List Char) :
    replaceFirstExpr (reduceExprLoop cs) = none :=
  reduceExprLoopFuel_fix cs.length cs (Nat.le_refl _)

/-- A list the regex does not match is left unchanged by the loop. -/
theorem reduceExprLoop_of_none {cs : List Char} (h : replaceFirstExpr cs = none) :
    reduceExprLoop cs = cs := by
  rw [reduceExprLoop]
  cases hl : cs.length with
  | zero => rfl
  | succ n => rw [reduceExprLoopFuel, h]

/-- JS `String.prototype.trim` whitespace (ASCII range plus NBSP). -/
def jsTrimChar (c : Char) : Bool :=
  c = ' ' || c = '\t' || c = '\n' || c = '\r' || c = '\x0b' || c = '\x0c' ||
  c = ' '

/-- Trim both ends. -/
def trimChars (cs : List Char) : List Char :=
  ((cs.dropWhile jsTrimChar).reverse.dropWhile jsTrimChar).reverse

/-- workflowAnalyzer.ts `reduceExpressionsFromString`. -/
def reduceExpressionsFromString (s : String) : String :=
  String.mk (trimChars (reduceExprLoop s.data))

/-- workflowAnalyzer.ts `isValidInputDataType`. -/
def isValidInputDataType (t : InputType) (data : Scalar) : Bool :=
  let dataType := data.typeofS
  let isValidDataType := (VALID_DATA_TYPES t).contains dataType
  if isValidDataType || (dataType != "string") then isValidDataType
  else
    match data with
    | .s sv => reduceExpressionsFromString sv == ""
    | _ => false

/-- The required-input loop of `#analyzeJob` over the callee's
`workflow_call` inputs: the first thrown `RuntimeError` message. -/
def checkCallInputs (jobId : String) (withArgs : Option (List (String × Scalar))) :
    List (String × WfInput) → Option String
  | [] => none
  | (inputId, input) :: rest =>
    if input.required = some true ∧ input.defaultVal = none then
      match withArgs.bind (fun w => alookup w inputId) with
      | none =>
        some ("input `" ++ inputId ++ "` is required to call workflow from job `" ++
          jobId ++ "`")
      | some v =>
        if isValidInputDataType input.type v = true then
          checkCallInputs jobId withArgs rest
        else
          some ("input `" ++ inputId ++ "` is a `" ++ input.type.name ++
            "` input and job `" ++ jobId ++ "` cannot call workflow with a `" ++
            v.typeofS ++ "` value")
    else checkCallInputs jobId withArgs rest

/-- JS `a || b` on an optional string (empty strings are falsy). -/
def jsOrS (a : Option String) (fallback : String) : String :=
  match a with
  | some s => if s = "" then fallback else s
  | none => fallback

/-- Specifier string of an action specifier. -/
def ActionSpec.specifierOf : ActionSpec → String
  | .docker u => u
  | .filesystem p => p
  | .repository _ _ _ _ sp => sp

/-- The required-input loop of `#analyzeJob` over a repository action's
inputs (presence only). -/
def checkActionInputs (specifier stepLabel jobId : String)
    (withArgs : Option (List (String × Scalar))) :
    List (String × GHActionInput) → Option String
  | [] => none
  | (inputId, input) :: rest =>
    if input.required = some true ∧ input.defaultVal = none then
      match withArgs.bind (fun w => alookup w inputId) with
      | none =>
        some ("input `" ++ inputId ++ "` is required to call action `" ++ specifier ++
          "` from `" ++ stepLabel ++ "` in job `" ++ jobId ++ "`")
      | some _ => checkActionInputs specifier stepLabel jobId withArgs rest
    else checkActionInputs specifier stepLabel jobId withArgs rest

/-- The steps loop of `#analyzeJob` (sequential, index used in the label). -/
def analyzeSteps (readAct : ActionSpec → Except GHErr GHAction) (jobId : String) :
    List AStep → Nat → Except AnalyzeErr Unit
  | [], _ => .ok ()
  | .run :: rest, i => analyzeSteps readAct jobId rest (i + 1)
  | .uses s :: rest, i =>
    match s.uses with
    | .repository _ _ _ _ _ =>
      (match readAct s.uses with
       | .error e => .error (.gh e)
       | .ok action =>
         match action.inputs with
         | none => analyzeSteps readAct jobId rest (i + 1)
         | some inputs =>
           let label := jsOrS s.id (jsOrS s.name ("step[" ++ toString i ++ "]"))
           match checkActionInputs s.uses.specifierOf label jobId s.withArgs inputs with
           | some msg => .error (.runtime msg)
           | none => analyzeSteps readAct jobId rest (i + 1))
    | _ => analyzeSteps readAct jobId rest (i + 1)

/-- workflowAnalyzer.ts `#analyzeJob`, with `#getWorkflow` and
`#readAction` abstracted as loaders. A Uses-kind job is analyzed only when
its raw `uses` string starts with `./`. -/
def analyzeJob (getWf : String → Except GHErr AWorkflow)
    (readAct : ActionSpec → Except GHErr GHAction)
    (wf : AWorkflow) (jobId : String) : Except AnalyzeErr Unit :=
  match alookup wf.jobs jobId with
  | none => .ok ()
  | some (.uses j) =>
    if jsStartsWith j.uses "./" then
      match getWf j.uses with
      | .error e => .error (.gh e)
      | .ok usesWorkflow =>
        match usesWorkflow.onEv.workflow_call with
        | none =>
          .error (.runtime ("job `" ++ jobId ++
            "` using a workflow requires `on.workflow_call:` in the called workflow"))
        | some onCall =>
          match onCall.inputs with
          | none => .ok ()
          | some inputs =>
            match checkCallInputs jobId j.withArgs inputs with
            | some msg => .error (.runtime msg)
            | none => .ok ()
    else .ok ()
  | some (.steps steps) => analyzeSteps readAct jobId steps 0

/-- The job iteration of workflowAnalyzer.ts `analyzeWorkflow`: a
`RuntimeError` is wrapped as a `WORKFLOW_RUNTIME` `GHWorkflowError` bound to
the workflow's path, other errors propagate. (`Promise.all` rejection order
is modelled as job order.) -/
def analyzeJobs (getWf : String → Except GHErr AWorkflow)
    (readAct : ActionSpec → Except GHErr GHAction) (wf : AWorkflow) :
    List String → Except GHErr Unit
  | [] => .ok ()
  | jid :: rest =>
    match analyzeJob getWf readAct wf jid with
    | .ok () => analyzeJobs getWf readAct wf rest
    | .error (.runtime msg) =>
      .error { code := "WORKFLOW_RUNTIME", workflow := wf.path.getD "", message := msg }
    | .error (.gh e) => .error e

/-- workflowAnalyzer.ts `analyzeWorkflow`. -/
def analyzeWorkflow (getWf : String → Except GHErr AWorkflow)
    (readAct : ActionSpec → Except GHErr GHAction) (wfPath : String) :
    Except GHErr Unit :=
  match getWf wfPath with
  | .error e => .error e
  | .ok wf => analyzeJobs getWf readAct wf (wf.jobs.map Prod.fst)

end ModelT

namespace ModelT

/-! The document cache. Both `GHWorkflowAnalyzer.#getWorkflow`
(`this.#workflows[p] || (this.#workflows[p] = this.#readWorkflow(p, ...))`)
and the three accessors of fileReader.ts `FileReader`
(`if (!cache[k]) cache[k] = this.#read...(k); return await cache[k]`) follow
the same pattern: a string-keyed mapping from target key to the settled
outcome of the single underlying computation. The check-and-insert happens
synchronously before any suspension point, so on the single-threaded
event loop every interleaving of concurrent requests is equivalent to a
sequential request list, which is what is modelled; a stored rejected
promise stays in the mapping, so a failure is cached like a success. -/

/-- One cache access: return the stored outcome or run the fetch once and
store its outcome. -/
def schemaCacheGet {α : Type} (fetch : String → α)
    (cache : List (String × α)) (k : String) : α × List (String × α) :=
  match alookup cache k with
  | some v => (v, cache)
  | none =>
    let v := fetch k
    (v, cache ++ [(k, v)])

/-- A run of cache requests: the responses in request order plus the log of
keys actually handed to the underlying fetcher. -/
def schemaCacheRun {α : Type} (fetch : String → α) :
    List String → List (String × α) → List (String × α) × List String
  | [], _ => ([], [])
  | k :: rest, cache =>
    let hit := (alookup cache k).isSome
    let (v, cache2) := schemaCacheGet fetch cache k
    let (rs, log) := schemaCacheRun fetch rest cache2
    ((k, v) :: rs, (if hit then [] else [k]) ++ log)

theorem alookup_append {α : Type} (l1 l2 : List (String × α)) (k : String) :
    alookup (l1 ++ l2) k =
      match alookup l1 k with
      | some v => some v
      | none => alookup l2 k := by
  induction l1 with
  | nil => simp [alookup]
  | cons e rest ih =>
    by_cases hk : e.1 = k
    · simp [alookup, hk]
    · simp [alookup, hk, ih]

theorem alookup_mem {α : Type} {l : List (String × α)} {k : String} {v : α}
    (h : alookup l k = some v) : (k, v) ∈ l := by
  induction l with
  | nil => simp [alookup] at h
  | cons e rest ih =>
    rw [alookup] at h
    split at h
    · cases e with
      | mk k2 v2 =>
        simp only [Option.some.injEq] at h
        simp_all
    · exact List.mem_cons_of_mem _ (ih h)

theorem schemaCacheRun_count {α : Type} (fetch : String → α) (k : String) :
    ∀ (reqs : List String) (cache : List (String × α)),
      ((schemaCacheRun fetch reqs cache).2.count k) ≤
        (if (alookup cache k).isSome then 0 else 1)
  | [], cache => by simp [schemaCacheRun]
  | k2 :: rest, cache => by
    rw [schemaCacheRun]
    simp only [schemaCacheGet]
    cases hh : alookup cache k2 with
    | some v =>
      simp only [hh, Option.isSome_some, if_true]
      have := schemaCacheRun_count fetch k rest cache
      simp only [List.count_append, List.count_nil] at *
      split <;> simp_all <;> omega
    | none =>
      simp only [hh, Option.isSome_none, Bool.false_eq_true, if_false]
      have hrec := schemaCacheRun_count fetch k rest (cache ++ [(k2, fetch k2)])
      rw [alookup_append] at hrec
      rw [List.count_append]
      have hsing : List.count k [k2] = if k2 = k then 1 else 0 := by
        by_cases hk : k2 = k
        · subst hk; simp
        · rw [if_neg hk]
          exact List.count_eq_zero.mpr (by simp [Ne.symm hk])
      rw [hsing]
      by_cases hk : k2 = k
      · subst hk
        rw [hh] at hrec
        have h1 : (match (none : Option α) with
            | some v => some v
            | none => alookup [(k2, fetch k2)] k2) = some (fetch k2) := by
          simp [alookup]
        rw [h1] at hrec
        simp only [Option.isSome_some, if_true] at hrec
        rw [if_pos rfl, hh]
        simp only [Option.isSome_none, Bool.false_eq_true, if_false]
        omega
      · have hnone : alookup [(k2, fetch k2)] k = none := by simp [alookup, hk]
        cases hck : alookup cache k with
        | some v =>
          rw [hck] at hrec
          simp only [Option.isSome_some, if_true] at hrec
          simp only [hck, Option.isSome_some, if_true, if_neg hk]
          omega
        | none =>
          rw [hck, hnone] at hrec
          simp only [Option.isSome_none, Bool.false_eq_true, if_false] at hrec
          simp only [hck, Option.isSome_none, Bool.false_eq_true, if_false, if_neg hk]
          omega
  termination_by reqs => reqs.length

theorem schemaCacheRun_responses {α : Type} (fetch : String → α) :
    ∀ (reqs : List String) (cache : List (String × α)),
      (∀ p ∈ cache, p.2 = fetch p.1) →
      ∀ p ∈ (schemaCacheRun fetch reqs cache).1, p.2 = fetch p.1
  | [], cache, _ => by simp [schemaCacheRun]
  | k2 :: rest, cache, hinv => by
    rw [schemaCacheRun]
    simp only [schemaCacheGet]
    cases hh : alookup cache k2 with
    | some v =>
      intro p hp
      simp only [List.mem_cons] at hp
      rcases hp with hp | hp
      · subst hp
        exact hinv _ (alookup_mem hh)
      · exact schemaCacheRun_responses fetch rest cache hinv p hp
    | none =>
      intro p hp
      simp only [List.mem_cons] at hp
      have hinv2 : ∀ q ∈ cache ++ [(k2, fetch k2)], q.2 = fetch q.1 := by
        intro q hq
        rcases List.mem_append.mp hq with hq | hq
        · exact hinv q hq
        · simp only [List.mem_singleton] at hq
          subst hq
          rfl
      rcases hp with hp | hp
      · subst hp; rfl
      · exact schemaCacheRun_responses fetch rest (cache ++ [(k2, fetch k2)]) hinv2 p hp
  termination_by reqs => reqs.length

end ModelT

namespace ModelT

/-! The repository object fetcher (src/lib/fetchers/repoObjectFetcher.ts). -/

/-- The error classification of a repository object fetch. -/
inductive FetchErr where
  | notFound
  | rateLimited (resetEpochSeconds : Int)
  | unauthorized
  | network
  | unexpectedStatus (status : Nat)
deriving DecidableEq, Repr

/-- The `instanceof GitHubApiNotFound` test. -/
def FetchErr.isNotFound : FetchErr → Bool
  | .notFound => true
  | _ => false

/-- The metadata path built by `fetchActionMetadata`: `action.yml`, prefixed
by the subdirectory (with a separating slash unless it already ends in
one). -/
def actionMetadataPath (subdir : Option String) : String :=
  match subdir with
  | none => "action.yml"
  | some d => d ++ (if jsEndsWith d "/" then "" else "/") ++ "action.yml"

/-- `p.replace(/\.yml$/, '.yaml')`. -/
def replaceYmlSuffix (p : String) : String :=
  if jsEndsWith p ".yml" then (jsDropRight p 4) ++ ".yaml" else p

/-- repoObjectFetcher.ts `RepoObjectFetcher.fetchActionMetadata`, with the
abstract `fetchFile` as a parameter; paired with the list of fetched paths
(the trace of `fetchFile` invocations). -/
def fetchActionMetadata (fetchFile : String → Except FetchErr String)
    (subdir : Option String) : Except FetchErr String × List String :=
  let p := actionMetadataPath subdir
  match fetchFile p with
  | .ok s => (.ok s, [p])
  | .error e =>
    if e.isNotFound then (fetchFile (replaceYmlSuffix p), [p, replaceYmlSuffix p])
    else (.error e, [p])

end ModelT

namespace ModelT

theorem isValidInputDataType_iff (t : InputType) (v : Scalar) :
    isValidInputDataType t v = true ↔
      ((VALID_DATA_TYPES t).contains v.typeofS = true ∨
       ∃ sv, v = Scalar.s sv ∧ reduceExpressionsFromString sv = "") := by
  cases v <;> cases t <;>
    simp [isValidInputDataType, Scalar.typeofS, VALID_DATA_TYPES] <;>
    constructor <;> intro h <;> simp_all [beq_iff_eq]

/-- C3 — the claim is false: a string with no `$\x7b\x7b…\x7d\x7d` expression at
all (the empty string) is still exempted from the type-compatibility error,
and a string whose literal content between two expressions ("oops") is
non-empty is exempted as well, because the greedy regex swallows it. -/
theorem C3_counterexample :
    replaceFirstExpr (("" : String).data) = none ∧
    isValidInputDataType .boolean (.s "") = true ∧
    isValidInputDataType .boolean
      (.s ("$\x7b\x7b a \x7d\x7d oops $\x7b\x7b b \x7d\x7d")) = true := by
  refine ⟨rfl, by decide, by decide⟩

/-- C3 (amended) — for a string value of a type whose table row does not
admit strings, the value is exempted if and only if repeatedly deleting the
leftmost greedy `$\x7b\x7b.*\x7d\x7d` match leaves a string that trims to
empty; in particular, when no match exists at all the value is exempted iff
the string itself is whitespace-only. -/
theorem C3_theorem (t : InputType) (s : String)
    (h : (VALID_DATA_TYPES t).contains "string" = false) :
    (isValidInputDataType t (.s s) = true ↔ reduceExpressionsFromString s = "") ∧
    (replaceFirstExpr s.data = none →
      (isValidInputDataType t (.s s) = true ↔ trimChars s.data = [])) := by
  have hmain : isValidInputDataType t (.s s) = true ↔
      reduceExpressionsFromString s = "" := by
    cases t <;>
      simp_all [isValidInputDataType, Scalar.typeofS, VALID_DATA_TYPES, beq_iff_eq]
  refine ⟨hmain, fun hn => ?_⟩
  rw [hmain]
  rw [reduceExpressionsFromString, reduceExprLoop_of_none hn]
  constructor
  · intro hmk
    have := congrArg String.data hmk
    simpa using this
  · intro htc
    rw [htc]

/-- C3 witness: the amended theorem applied to the boolean row and the
whitespace-only string. -/
theorem C3_witness :
    (isValidInputDataType .boolean (.s "  ") = true ↔
      reduceExpressionsFromString "  " = "") ∧
    (replaceFirstExpr ("  ".data) = none →
      (isValidInputDataType .boolean (.s "  ") = true ↔ trimChars ("  ".data) = [])) :=
  C3_theorem .boolean "  " (by decide)

end ModelT

namespace ModelT

/-- The required-input loop passes without error exactly when every
required, default-less callee input has a caller value accepted by
`isValidInputDataType`. -/
theorem checkCallInputs_none_iff (jobId : String)
    (withArgs : Option (List (String × Scalar))) (inputs : List (String × WfInput)) :
    checkCallInputs jobId withArgs inputs = none ↔
      ∀ p ∈ inputs, (p.2.required = some true ∧ p.2.defaultVal = none) →
        ∃ v, withArgs.bind (fun w => alookup w p.1) = some v ∧
          isValidInputDataType p.2.type v = true := by
  induction inputs with
  | nil => simp [checkCallInputs]
  | cons e rest ih =>
    obtain ⟨inputId, input⟩ := e
    rw [checkCallInputs]
    by_cases hreq : input.required = some true ∧ input.defaultVal = none
    · rw [if_pos hreq]
      split
      next hw =>
        constructor
        · intro hcontra; exact absurd hcontra (by simp)
        · intro hall
          obtain ⟨v, hv, _⟩ := hall (inputId, input) (List.mem_cons_self _ _) hreq
          rw [hw] at hv
          exact absurd hv (by simp)
      next v hw =>
        by_cases hvalid : isValidInputDataType input.type v = true
        · rw [if_pos hvalid, ih]
          constructor
          · intro hall p hp hpreq
            rcases List.mem_cons.mp hp with hp | hp
            · cases hp
              exact ⟨v, hw, hvalid⟩
            · exact hall p hp hpreq
          · intro hall p hp hpreq
            exact hall p (List.mem_cons_of_mem _ hp) hpreq
        · rw [if_neg hvalid]
          constructor
          · intro hcontra; exact absurd hcontra (by simp)
          · intro hall
            obtain ⟨v2, hv2, hval2⟩ := hall (inputId, input) (List.mem_cons_self _ _) hreq
            rw [hw] at hv2
            cases hv2
            exact absurd hval2 hvalid
    · rw [if_neg hreq, ih]
      constructor
      · intro hall p hp hpreq
        rcases List.mem_cons.mp hp with hp | hp
        · cases hp
          exact absurd hpreq hreq
        · exact hall p hp hpreq
      · intro hall p hp hpreq
        exact hall p (List.mem_cons_of_mem _ hp) hpreq

/-- When the loop raises, the message comes from a violating required,
default-less input: missing from `with`, or carrying a value the check
rejects. -/
theorem checkCallInputs_some (jobId : String)
    (withArgs : Option (List (String × Scalar))) (inputs : List (String × WfInput))
    (msg : String) (h : checkCallInputs jobId withArgs inputs = some msg) :
    ∃ p ∈ inputs, p.2.required = some true ∧ p.2.defaultVal = none ∧
      ((withArgs.bind (fun w => alookup w p.1) = none ∧
        msg = "input `" ++ p.1 ++ "` is required to call workflow from job `" ++
          jobId ++ "`") ∨
       (∃ v, withArgs.bind (fun w => alookup w p.1) = some v ∧
        isValidInputDataType p.2.type v = false ∧
        msg = "input `" ++ p.1 ++ "` is a `" ++ p.2.type.name ++
          "` input and job `" ++ jobId ++ "` cannot call workflow with a `" ++
          v.typeofS ++ "` value")) := by
  induction inputs with
  | nil => simp [checkCallInputs] at h
  | cons e rest ih =>
    obtain ⟨inputId, input⟩ := e
    rw [checkCallInputs] at h
    by_cases hreq : input.required = some true ∧ input.defaultVal = none
    · rw [if_pos hreq] at h
      split at h
      next hw =>
        simp only [Option.some.injEq] at h
        exact ⟨(inputId, input), List.mem_cons_self _ _, hreq.1, hreq.2,
          Or.inl ⟨hw, h.symm⟩⟩
      next v hw =>
        by_cases hvalid : isValidInputDataType input.type v = true
        · rw [if_pos hvalid] at h
          obtain ⟨p, hp, hx⟩ := ih h
          exact ⟨p, List.mem_cons_of_mem _ hp, hx⟩
        · rw [if_neg hvalid] at h
          simp only [Option.some.injEq] at h
          exact ⟨(inputId, input), List.mem_cons_self _ _, hreq.1, hreq.2,
            Or.inr ⟨v, hw, by simpa using hvalid, h.symm⟩⟩
    · rw [if_neg hreq] at h
      obtain ⟨p, hp, hx⟩ := ih h
      exact ⟨p, List.mem_cons_of_mem _ hp, hx⟩

end ModelT

namespace ModelT

/-- C1 (amended) — the analyzer performs the callee `workflow_call` check
only for a Uses-kind job whose raw `uses` string starts with `./`: for such
a job, with the callee loaded and lacking `workflow_call`, `#analyzeJob`
raises the runtime error with the documented message (wrapped by
`analyzeWorkflow` into a `WORKFLOW_RUNTIME` error); for any other `uses`
string — a repository specifier, or a `../` path — the job is not analyzed
at all and no error is raised. -/
theorem C1_theorem (getWf : String → Except GHErr AWorkflow)
    (readAct : ActionSpec → Except GHErr GHAction)
    (wf : AWorkflow) (jobId : String) (j : AUsesJob)
    (hJob : alookup wf.jobs jobId = some (.uses j)) :
    (∀ callee, jsStartsWith j.uses "./" = true → getWf j.uses = .ok callee →
       callee.onEv.workflow_call = none →
       analyzeJob getWf readAct wf jobId =
         .error (.runtime ("job `" ++ jobId ++
           "` using a workflow requires `on.workflow_call:` in the called workflow"))) ∧
    (jsStartsWith j.uses "./" = false →
       analyzeJob getWf readAct wf jobId = .ok ()) ∧
    (∀ wfPath callee, getWf wfPath = .ok wf → wf.jobs = [(jobId, AJob.uses j)] →
       jsStartsWith j.uses "./" = true → getWf j.uses = .ok callee →
       callee.onEv.workflow_call = none →
       analyzeWorkflow getWf readAct wfPath =
         .error { code := "WORKFLOW_RUNTIME", workflow := wf.path.getD "",
                  message := "job `" ++ jobId ++
                    "` using a workflow requires `on.workflow_call:` in the called workflow" }) := by
  have hjobline : ∀ callee, jsStartsWith j.uses "./" = true → getWf j.uses = .ok callee →
      callee.onEv.workflow_call = none →
      analyzeJob getWf readAct wf jobId =
        .error (.runtime ("job `" ++ jobId ++
          "` using a workflow requires `on.workflow_call:` in the called workflow")) := by
    intro callee hfs hget hnone
    rw [analyzeJob, hJob]
    simp only [hfs, if_true, hget, hnone]
  refine ⟨hjobline, ?_, ?_⟩
  · intro hfs
    rw [analyzeJob, hJob]
    simp only [hfs]
    rfl
  · intro wfPath callee hgetTop hjobs hfs hget hnone
    rw [analyzeWorkflow, hgetTop]
    simp only [hjobs, List.map_cons, List.map_nil]
    rw [analyzeJobs, hjobline callee hfs hget hnone]

/-- C1 witness: a filesystem `./` callee without `workflow_call` raises the
runtime error through both conjuncts. -/
def c1wWf : AWorkflow :=
  { path := some ".github/workflows/release.yml",
    onEv := { workflow_dispatch := some {} },
    jobs := [("verify", .uses { uses := "./.github/workflows/verify.yml" })] }

/-- Callee without `workflow_call` for the C1 witness. -/
def c1wCallee : AWorkflow :=
  { onEv := { pull_request := true, push := true },
    jobs := [("verify", .steps [.run])] }

/-- Loader oracle of the C1 witness. -/
def c1wGetWf : String → Except GHErr AWorkflow := fun p =>
  if p = ".github/workflows/release.yml" then .ok c1wWf
  else if p = "./.github/workflows/verify.yml" then .ok c1wCallee
  else .error { code := "WORKFLOW_NOT_FOUND", workflow := p, message := "" }

/-- Action oracle shared by the analyzer examples (never consulted). -/
def cNoAct : ActionSpec → Except GHErr GHAction := fun sp =>
  .error { code := "ACTION_NOT_FOUND", workflow := "", message := sp.specifierOf }

theorem C1_witness :
    analyzeJob c1wGetWf cNoAct c1wWf "verify" =
      .error (.runtime ("job `" ++ "verify" ++
        "` using a workflow requires `on.workflow_call:` in the called workflow")) ∧
    analyzeWorkflow c1wGetWf cNoAct ".github/workflows/release.yml" =
      .error { code := "WORKFLOW_RUNTIME", workflow := c1wWf.path.getD "",
               message := "job `" ++ "verify" ++
                 "` using a workflow requires `on.workflow_call:` in the called workflow" } := by
  have h := C1_theorem c1wGetWf cNoAct c1wWf "verify"
    { uses := "./.github/workflows/verify.yml" } (by decide)
  exact ⟨h.1 c1wCallee (by decide) (by decide) (by decide),
    h.2.2 ".github/workflows/release.yml" c1wCallee (by decide) (by decide)
      (by decide) (by decide) (by decide)⟩

/-- Top workflow of the C1 counterexample: the Uses-kind job's workflow
call specifier is a repository specifier. -/
def c1cWf : AWorkflow :=
  { path := some ".github/workflows/release.yml",
    onEv := { workflow_dispatch := some {} },
    jobs := [("verify", .uses { uses := "octo/repo/.github/workflows/verify.yml@v1" })] }

/-- The repository callee, loadable under its specifier key and lacking
`workflow_call`. -/
def c1cCallee : AWorkflow :=
  { onEv := { pull_request := true, push := true },
    jobs := [("verify", .steps [.run])] }

/-- Loader oracle of the C1 counterexample. -/
def c1cGetWf : String → Except GHErr AWorkflow := fun p =>
  if p = ".github/workflows/release.yml" then .ok c1cWf
  else if p = "octo/repo/.github/workflows/verify.yml@v1" then .ok c1cCallee
  else .error { code := "WORKFLOW_NOT_FOUND", workflow := p, message := "" }

/-- C1 — the claim is false for repository specifiers: the callee is
loadable and lacks `workflow_call`, yet `analyzeWorkflow` reports no error
at all, because `#analyzeJob` only inspects `uses` strings starting with
`./`. -/
theorem C1_counterexample :
    c1cGetWf "octo/repo/.github/workflows/verify.yml@v1" = .ok c1cCallee ∧
    c1cCallee.onEv.workflow_call = none ∧
    analyzeWorkflow c1cGetWf cNoAct ".github/workflows/release.yml" = .ok () := by
  refine ⟨by decide, by decide, by decide⟩

end ModelT

namespace ModelT

/-- C2 (amended) — for a Uses-kind job analyzed against a loaded callee with
declared `workflow_call` inputs: the analysis passes exactly when every
required, default-less input is present in the job's `with` with a value
accepted by `isValidInputDataType` (the table plus the expression-elision
exemption for strings); when it raises, the runtime message is the
missing-input or type-mismatch message of a violating required,
default-less input — inputs that are not required or carry a default are
never flagged. -/
theorem C2_theorem (getWf : String → Except GHErr AWorkflow)
    (readAct : ActionSpec → Except GHErr GHAction)
    (wf : AWorkflow) (jobId : String) (j : AUsesJob) (callee : AWorkflow)
    (onCall : WfCallCfg) (inputs : List (String × WfInput))
    (hJob : alookup wf.jobs jobId = some (.uses j))
    (hFs : jsStartsWith j.uses "./" = true)
    (hGet : getWf j.uses = .ok callee)
    (hCall : callee.onEv.workflow_call = some onCall)
    (hInp : onCall.inputs = some inputs) :
    (analyzeJob getWf readAct wf jobId = .ok () ↔
       ∀ p ∈ inputs, (p.2.required = some true ∧ p.2.defaultVal = none) →
         ∃ v, j.withArgs.bind (fun w => alookup w p.1) = some v ∧
           isValidInputDataType p.2.type v = true) ∧
    (∀ msg, analyzeJob getWf readAct wf jobId = .error (.runtime msg) →
       ∃ p ∈ inputs, p.2.required = some true ∧ p.2.defaultVal = none ∧
         ((j.withArgs.bind (fun w => alookup w p.1) = none ∧
           msg = "input `" ++ p.1 ++ "` is required to call workflow from job `" ++
             jobId ++ "`") ∨
          (∃ v, j.withArgs.bind (fun w => alookup w p.1) = some v ∧
           isValidInputDataType p.2.type v = false ∧
           msg = "input `" ++ p.1 ++ "` is a `" ++ p.2.type.name ++
             "` input and job `" ++ jobId ++ "` cannot call workflow with a `" ++
             v.typeofS ++ "` value"))) := by
  have hred : analyzeJob getWf readAct wf jobId =
      (match checkCallInputs jobId j.withArgs inputs with
       | some msg => .error (.runtime msg)
       | none => .ok ()) := by
    rw [analyzeJob, hJob]
    simp only [hFs, if_true, hGet, hCall, hInp]
  constructor
  · rw [hred]
    cases hc : checkCallInputs jobId j.withArgs inputs with
    | none =>
      simp only []
      rw [← checkCallInputs_none_iff jobId j.withArgs inputs, hc]
      simp
    | some msg =>
      simp only []
      constructor
      · intro hcontra; exact absurd hcontra (by simp)
      · intro hall
        have : checkCallInputs jobId j.withArgs inputs = none :=
          (checkCallInputs_none_iff jobId j.withArgs inputs).mpr hall
        rw [hc] at this
        exact absurd this (by simp)
  · intro msg hmsg
    rw [hred] at hmsg
    cases hc : checkCallInputs jobId j.withArgs inputs with
    | none => rw [hc] at hmsg; exact absurd hmsg (by simp)
    | some msg2 =>
      rw [hc] at hmsg
      have : msg2 = msg := by simpa using hmsg
      subst this
      exact checkCallInputs_some jobId j.withArgs inputs msg2 hc

/-- The Uses-kind job of the C2 examples: the caller provides `run_tests`
as a pure-expression string. -/
def c2Job : AUsesJob :=
  { uses := "./.github/workflows/verify.yml",
    withArgs := some [("run_tests", .s "$\x7b\x7b inputs.flag \x7d\x7d")] }

/-- Top workflow of the C2 examples. -/
def c2Wf : AWorkflow :=
  { path := some ".github/workflows/release.yml",
    onEv := { workflow_dispatch := some {} },
    jobs := [("verify", .uses c2Job)] }

/-- The required, default-less boolean input of the C2 callee. -/
def c2Input : WfInput := { type := .boolean, required := some true }

/-- Callee declaring a required, default-less boolean input. -/
def c2Callee : AWorkflow :=
  { onEv := { workflow_call := some { inputs := some [("run_tests", c2Input)] } },
    jobs := [("verify", .steps [.run])] }

/-- Loader oracle of the C2 examples. -/
def c2GetWf : String → Except GHErr AWorkflow := fun p =>
  if p = ".github/workflows/release.yml" then .ok c2Wf
  else if p = "./.github/workflows/verify.yml" then .ok c2Callee
  else .error { code := "WORKFLOW_NOT_FOUND", workflow := p, message := "" }

/-- C2 — the claim is false as stated: the caller's value for the required
boolean input is a string, which the claimed table does not admit for a
boolean input, yet the analyzer reports no error because the value is a
pure `$\x7b\x7b…\x7d\x7d` expression string exempted by elision. -/
theorem C2_counterexample :
    (VALID_DATA_TYPES .boolean).contains (Scalar.s "$\x7b\x7b inputs.flag \x7d\x7d").typeofS = false ∧
    analyzeWorkflow c2GetWf cNoAct ".github/workflows/release.yml" = .ok () := by
  refine ⟨by decide, by decide⟩

/-- C2 witness: the amended theorem applied to the concrete caller/callee
pair; the caller omits nothing and the expression value is accepted, so
both conjuncts are usable with their hypotheses discharged. -/
theorem C2_witness :
    (analyzeJob c2GetWf cNoAct c2Wf "verify" = .ok () ↔
       ∀ p ∈ [("run_tests", c2Input)],
         (p.2.required = some true ∧ p.2.defaultVal = none) →
         ∃ v, c2Job.withArgs.bind (fun w => alookup w p.1) = some v ∧
           isValidInputDataType p.2.type v = true) := by
  have h := C2_theorem c2GetWf cNoAct c2Wf "verify" c2Job c2Callee
    { inputs := some [("run_tests", c2Input)] } [("run_tests", c2Input)]
    (by decide) (by decide) (by decide) (by decide) (by decide)
  exact h.1

end ModelT

namespace ModelT

/-- C5 — the cache's at-most-once and result-sharing guarantees: across any
run of requests against a fresh cache, each distinct key reaches the
underlying fetcher at most once, and every request (first or subsequent,
successful or failed computation alike, since the settled outcome is what
the mapping stores) receives exactly the single computation's outcome for
its key. -/
theorem C5_theorem {α : Type} (fetch : String → α) (reqs : List String) :
    (∀ k, (schemaCacheRun fetch reqs []).2.count k ≤ 1) ∧
    (∀ p ∈ (schemaCacheRun fetch reqs []).1, p.2 = fetch p.1) := by
  constructor
  · intro k
    have h := schemaCacheRun_count fetch k reqs []
    simpa [alookup] using h
  · exact schemaCacheRun_responses fetch reqs [] (by simp)

/-- C5 witness: a run with a repeated key and a key whose computation is an
error-like value; the repeated key is fetched at most once and both
responses carry the single outcome. -/
theorem C5_witness :
    ((schemaCacheRun (fun k => if k = "bad" then Except.error "boom"
        else Except.ok ("doc:" ++ k))
      ["a", "bad", "a", "bad"] []).2.count "a" ≤ 1) ∧
    (("bad", (Except.error "boom" : Except String String)) ∈
        (schemaCacheRun (fun k => if k = "bad" then Except.error "boom"
          else Except.ok ("doc:" ++ k)) ["a", "bad", "a", "bad"] []).1 →
      (("bad", (Except.error "boom" : Except String String)).2 =
        (fun k => if k = "bad" then Except.error "boom"
          else Except.ok ("doc:" ++ k)) "bad")) := by
  refine ⟨(C5_theorem _ _).1 "a", fun hm => ?_⟩
  exact (C5_theorem (fun k => if k = "bad" then Except.error "boom"
    else Except.ok ("doc:" ++ k)) ["a", "bad", "a", "bad"]).2 _ hm

/-- C7 — `fetchActionMetadata` first fetches `action.yml` at the
subdirectory-prefixed path; it retries exactly once with `action.yaml` if
and only if the first fetch fails with the GitHub-API not-found error, and
any other failure — and any failure of the retry itself — propagates. -/
theorem C7_theorem (fetchFile : String → Except FetchErr String)
    (subdir : Option String) :
    (subdir = none → actionMetadataPath subdir = "action.yml") ∧
    (∀ d, subdir = some d → jsEndsWith d "/" = false →
       actionMetadataPath subdir = d ++ "/" ++ "action.yml") ∧
    (∀ s, fetchFile (actionMetadataPath subdir) = .ok s →
       fetchActionMetadata fetchFile subdir = (.ok s, [actionMetadataPath subdir])) ∧
    (fetchFile (actionMetadataPath subdir) = .error .notFound →
       fetchActionMetadata fetchFile subdir =
         (fetchFile (replaceYmlSuffix (actionMetadataPath subdir)),
          [actionMetadataPath subdir, replaceYmlSuffix (actionMetadataPath subdir)])) ∧
    (∀ e, fetchFile (actionMetadataPath subdir) = .error e → e ≠ .notFound →
       fetchActionMetadata fetchFile subdir = (.error e, [actionMetadataPath subdir])) := by
  refine ⟨?_, ?_, ?_, ?_, ?_⟩
  · intro hs; subst hs; rfl
  · intro d hs hsl
    subst hs
    simp [actionMetadataPath, hsl]
  · intro s hok
    rw [fetchActionMetadata, hok]
  · intro hnf
    rw [fetchActionMetadata, hnf]
    simp [FetchErr.isNotFound]
  · intro e herr hne
    rw [fetchActionMetadata, herr]
    have hnf : e.isNotFound = false := by
      cases e <;> simp_all [FetchErr.isNotFound]
    simp [hnf]

/-- C7 witness: the theorem applied to a concrete two-entry object store
where `setup/action.yml` is missing and `setup/action.yaml` exists. -/
theorem C7_witness :
    fetchActionMetadata
      (fun p => if p = "setup/action.yaml" then Except.ok "inputs:" else Except.error .notFound)
      (some "setup") =
      ((fun p => if p = "setup/action.yaml" then Except.ok "inputs:" else Except.error .notFound)
        (replaceYmlSuffix (actionMetadataPath (some "setup"))),
       [actionMetadataPath (some "setup"),
        replaceYmlSuffix (actionMetadataPath (some "setup"))]) := by
  exact (C7_theorem _ (some "setup")).2.2.2.1 (by decide)

end ModelT

namespace ModelT

/-- A path under the `jobs` scope. -/
def jobsScoped (p : String) : Prop := ∃ s, p = "jobs." ++ s

theorem jobPath_scoped (jobId suffix : String) :
    jobsScoped (jobPath jobId ++ suffix) :=
  ⟨jobId ++ suffix, by simp [jobPath, String.append_assoc]⟩

theorem jobPath_scoped_bare (jobId : String) : jobsScoped (jobPath jobId) :=
  ⟨jobId, by simp [jobPath]⟩

theorem stepPath_scoped (jobId : String) (i : Nat) (suffix : String) :
    jobsScoped (stepPath jobId i ++ suffix) :=
  ⟨jobId ++ ".steps[" ++ toString i ++ "]" ++ suffix, by
    simp [stepPath, String.append_assoc]⟩

theorem stepPath_scoped_bare (jobId : String) (i : Nat) :
    jobsScoped (stepPath jobId i) :=
  ⟨jobId ++ ".steps[" ++ toString i ++ "]", by simp [stepPath, String.append_assoc]⟩

theorem parseStepId_path {jobId : String} {i : Nat} {es : List (String × Yaml)}
    {e : SchemaError} (h : parseStepId jobId i es = .error e) :
    ∃ s, e.path = stepPath jobId i ++ s := by
  rw [parseStepId] at h
  repeat' split at h
  all_goals first
    | (exact ⟨".id", by injection h with h2; rw [← h2]⟩)
    | simp at h

theorem parseStepIf_path {jobId : String} {i : Nat} {es : List (String × Yaml)}
    {e : SchemaError} (h : parseStepIf jobId i es = .error e) :
    ∃ s, e.path = stepPath jobId i ++ s := by
  rw [parseStepIf] at h
  repeat' split at h
  all_goals first
    | (exact ⟨".if", by injection h with h2; rw [← h2]⟩)
    | simp at h

theorem parseStepName_path {jobId : String} {i : Nat} {es : List (String × Yaml)}
    {e : SchemaError} (h : parseStepName jobId i es = .error e) :
    ∃ s, e.path = stepPath jobId i ++ s := by
  rw [parseStepName] at h
  repeat' split at h
  all_goals first
    | (exact ⟨".name", by injection h with h2; rw [← h2]⟩)
    | simp at h

theorem parseStepRun_path {jobId : String} {i : Nat} {es : List (String × Yaml)}
    {e : SchemaError} (h : parseStepRun jobId i es = .error e) :
    ∃ s, e.path = stepPath jobId i ++ s := by
  rw [parseStepRun] at h
  repeat' split at h
  all_goals first
    | (exact ⟨".run", by injection h with h2; rw [← h2]⟩)
    | simp at h

theorem parseStepEnv_path {jobId : String} {i : Nat} {es : List (String × Yaml)}
    {e : SchemaError} (h : parseStepEnv jobId i es = .error e) :
    ∃ s, e.path = stepPath jobId i ++ s := by
  rw [parseStepEnv] at h
  repeat' split at h
  all_goals first
    | (exact ⟨".env", by injection h with h2; rw [← h2]⟩)
    | simp at h

theorem parseStepWith_path {jobId : String} {i : Nat} {es : List (String × Yaml)}
    {e : SchemaError} (h : parseStepWith jobId i es = .error e) :
    ∃ s, e.path = stepPath jobId i ++ s := by
  rw [parseStepWith] at h
  repeat' split at h
  all_goals first
    | (exact ⟨".with", by injection h with h2; rw [← h2]⟩)
    | simp at h

theorem parseStepUsesActionValue_path {v : Yaml} {jobId : String} {i : Nat}
    {e : SchemaError} (h : parseStepUsesActionValue v jobId i = .error e) :
    ∃ s, e.path = stepPath jobId i ++ s := by
  cases v
  case str s =>
    rw [parseStepUsesActionValue] at h
    split at h
    · exact absurd h (by simp)
    · split at h
      · exact absurd h (by simp)
      · dsimp only [] at h
        split at h
        · exact ⟨".uses", by injection h with h2; rw [← h2]⟩
        · split at h
          · exact ⟨".uses", by injection h with h2; rw [← h2]⟩
          · exact absurd h (by simp)
  all_goals exact ⟨".uses", by injection h with h2; rw [← h2]⟩

theorem checkUnsupportedJobStepKeys_path {es : List (String × Yaml)}
    {jobId : String} {i : Nat} {x : SchemaError}
    (h : x ∈ checkUnsupportedJobStepKeys es jobId i) :
    ∃ s, x.path = stepPath jobId i ++ s := by
  rw [checkUnsupportedJobStepKeys] at h
  obtain ⟨k, _, hk⟩ := List.mem_filterMap.mp h
  split at hk
  · simp at hk
  · have hx : x.path = stepPath jobId i ++ "." ++ k := by
      cases (Option.some.injEq _ _).mp hk
      rfl
    exact ⟨"." ++ k, by rw [hx, String.append_assoc]⟩

theorem parseStep_schema_path {jobId : String} {i : Nat} {es : List (String × Yaml)}
    {e : SchemaError} (h : parseStep jobId i es = .error (.schema e)) :
    ∃ s, e.path = stepPath jobId i ++ s := by
  rw [parseStep] at h
  dsimp only [] at h
  repeat' split at h
  all_goals first
    | exact Except.noConfusion h
    | exact Except.noConfusion h (fun h2 => StepFail.noConfusion h2)
    | (injection h with h2
       injection h2 with h3
       rw [← h3]
       first
         | (apply parseStepId_path; assumption)
         | (apply parseStepIf_path; assumption)
         | (apply parseStepName_path; assumption)
         | (apply parseStepRun_path; assumption)
         | (apply parseStepEnv_path; assumption)
         | (apply parseStepWith_path; assumption)
         | (apply parseStepUsesActionValue_path; assumption)
         | exact ⟨"", (String.append_empty _).symm⟩)

theorem parseStep_internal_msg {jobId : String} {i : Nat} {es : List (String × Yaml)}
    {m : String} (h : parseStep jobId i es = .error (.internal m)) :
    m = "step cannot have run and uses" ∨ m = "step must have run or uses" := by
  rw [parseStep] at h
  dsimp only [] at h
  repeat' split at h
  all_goals simp_all

end ModelT

namespace ModelT

theorem collectStepsFrom_schema_path {jobId : String} :
    ∀ {steps : List Yaml} {i : Nat} {errsS : List SchemaError} {e : SchemaError},
      collectStepsFrom jobId i steps = (errsS, .error (.schema e)) →
      ∃ idx s, e.path = stepPath jobId idx ++ s := by
  intro steps
  induction steps with
  | nil =>
    intro i errsS e h
    rw [collectStepsFrom] at h
    simp at h
  | cons stY rest ih =>
    intro i errsS e h
    rw [collectStepsFrom] at h
    dsimp only [] at h
    split at h
    next f hp =>
      injection h with h1 h2
      injection h2 with h3
      subst h3
      obtain ⟨s, hs⟩ := parseStep_schema_path hp
      exact ⟨i, s, hs⟩
    next step hp =>
      cases hrec : collectStepsFrom jobId (i + 1) rest with
      | mk errsR r =>
        rw [hrec] at h
        cases r with
        | error f =>
          cases f with
          | schema e2 =>
            have he : e2 = e := by
              injection h with h1 h2
              simp [Except.map] at h2
              exact h2
            subst he
            exact ih hrec
          | internal m =>
            injection h with h1 h2
            simp [Except.map] at h2
        | ok steps2 =>
          injection h with h1 h2
          simp [Except.map] at h2

theorem collectStepsFrom_internal_msg {jobId : String} :
    ∀ {steps : List Yaml} {i : Nat} {errsS : List SchemaError} {m : String},
      collectStepsFrom jobId i steps = (errsS, .error (.internal m)) →
      m = "step cannot have run and uses" ∨ m = "step must have run or uses" := by
  intro steps
  induction steps with
  | nil =>
    intro i errsS m h
    rw [collectStepsFrom] at h
    simp at h
  | cons stY rest ih =>
    intro i errsS m h
    rw [collectStepsFrom] at h
    dsimp only [] at h
    split at h
    next f hp =>
      injection h with h1 h2
      injection h2 with h3
      subst h3
      exact parseStep_internal_msg hp
    next step hp =>
      cases hrec : collectStepsFrom jobId (i + 1) rest with
      | mk errsR r =>
        rw [hrec] at h
        cases r with
        | error f =>
          cases f with
          | schema e2 =>
            injection h with h1 h2
            simp [Except.map] at h2
          | internal m2 =>
            have he : m2 = m := by
              injection h with h1 h2
              simp [Except.map] at h2
              exact h2
            subst he
            exact ih hrec
        | ok steps2 =>
          injection h with h1 h2
          simp [Except.map] at h2

theorem collectStepsFrom_errs_path {jobId : String} :
    ∀ {steps : List Yaml} {i : Nat} {x : SchemaError},
      x ∈ (collectStepsFrom jobId i steps).1 →
      ∃ idx s, x.path = stepPath jobId idx ++ s := by
  intro steps
  induction steps with
  | nil =>
    intro i x h
    rw [collectStepsFrom] at h
    simp at h
  | cons stY rest ih =>
    intro i x h
    rw [collectStepsFrom] at h
    dsimp only [] at h
    split at h
    next f hp =>
      obtain ⟨s, hs⟩ := checkUnsupportedJobStepKeys_path h
      exact ⟨i, s, hs⟩
    next step hp =>
      rcases List.mem_append.mp h with hmem | hmem
      · obtain ⟨s, hs⟩ := checkUnsupportedJobStepKeys_path hmem
        exact ⟨i, s, hs⟩
      · exact ih hmem

end ModelT

namespace ModelT

theorem alookup_eq_none {α : Type} {l : List (String × α)} {k : String}
    (h : k ∉ l.map Prod.fst) : alookup l k = none := by
  cases ha : alookup l k with
  | none => rfl
  | some v =>
    exact absurd (List.mem_map.mpr ⟨(k, v), alookup_mem ha, rfl⟩) h

theorem collectJobsFrom_keys :
    ∀ {entries : List (String × Yaml)} {errs : List SchemaError}
      {jobs : List (String × Job)},
      collectJobsFrom entries = (errs, .ok jobs) →
      ∀ p ∈ jobs, p.1 ∈ entries.map Prod.fst := by
  intro entries
  induction entries with
  | nil =>
    intro errs jobs h p hp
    rw [collectJobsFrom] at h
    injection h with h1 h2
    injection h2 with h3
    rw [← h3] at hp
    simp at hp
  | cons e rest ih =>
    intro errs jobs h p hp
    rw [collectJobsFrom] at h
    dsimp only [] at h
    cases hpr : parseJob e.1 e.2 with
    | mk errsE r =>
      rw [hpr] at h
      dsimp only [] at h
      cases hrec : collectJobsFrom rest with
      | mk errsR rr =>
        rw [hrec] at h
        dsimp only [] at h
        cases r with
        | error f =>
          cases f with
          | internal m =>
            injection h with h1 h2
            exact absurd h2 (by simp)
          | schema se =>
            injection h with h1 h2
            rw [h2] at hrec
            exact List.mem_cons_of_mem _ (ih hrec p hp)
        | ok job =>
          injection h with h1 h2
          cases rr with
          | error m => exact absurd h2 (by simp [Except.map])
          | ok jobs2 =>
            have hj : (e.1, job) :: jobs2 = jobs := by
              simpa [Except.map] using h2
            rw [← hj] at hp
            rcases List.mem_cons.mp hp with hc | hc
            · rw [hc]; exact List.mem_cons_self _ _
            · exact List.mem_cons_of_mem _ (ih hrec p hc)

theorem collectJobsFrom_skip :
    ∀ {entries : List (String × Yaml)} {jid : String} {yv : Yaml}
      {errsJ errs : List SchemaError} {se : SchemaError}
      {jobs : List (String × Job)},
      (entries.map Prod.fst).Nodup →
      (jid, yv) ∈ entries →
      parseJob jid yv = (errsJ, .error (.schema se)) →
      collectJobsFrom entries = (errs, .ok jobs) →
      alookup jobs jid = none ∧ se ∈ errs ∧ ∀ x ∈ errsJ, x ∈ errs := by
  intro entries
  induction entries with
  | nil =>
    intro jid yv errsJ errs se jobs hnd hmem hpj hc
    simp at hmem
  | cons e rest ih =>
    intro jid yv errsJ errs se jobs hnd hmem hpj hc
    cases e with
    | mk k v =>
      rw [collectJobsFrom] at hc
      dsimp only [] at hc
      have hnd2 : (rest.map Prod.fst).Nodup := (List.nodup_cons.mp hnd).2
      have hout : k ∉ rest.map Prod.fst := (List.nodup_cons.mp hnd).1
      rcases List.mem_cons.mp hmem with hhead | htail
      · injection hhead with h1 h2
        subst h1
        subst h2
        rw [hpj] at hc
        dsimp only [] at hc
        cases hrec : collectJobsFrom rest with
        | mk errsR rr =>
          rw [hrec] at hc
          dsimp only [] at hc
          injection hc with hc1 hc2
          cases rr with
          | error m => exact absurd hc2 (by simp)
          | ok jobs2 =>
            have hj : jobs2 = jobs := by simpa using hc2
            subst hj
            refine ⟨?_, ?_, ?_⟩
            · apply alookup_eq_none
              intro hin
              obtain ⟨p, hp, hpk⟩ := List.mem_map.mp hin
              exact hout (hpk ▸ collectJobsFrom_keys hrec p hp)
            · rw [← hc1]; simp
            · intro x hx
              rw [← hc1]
              simp [hx]
      · cases hpr : parseJob k v with
        | mk errsE r =>
          rw [hpr] at hc
          dsimp only [] at hc
          cases hrec : collectJobsFrom rest with
          | mk errsR rr =>
            rw [hrec] at hc
            dsimp only [] at hc
            cases r with
            | error f =>
              cases f with
              | internal m =>
                injection hc with hc1 hc2
                exact absurd hc2 (by simp)
              | schema se2 =>
                injection hc with hc1 hc2
                cases rr with
                | error m => exact absurd hc2 (by simp)
                | ok jobs2 =>
                  have hj : jobs2 = jobs := by simpa using hc2
                  subst hj
                  obtain ⟨ha, hb, hsub⟩ := ih hnd2 htail hpj hrec
                  refine ⟨ha, ?_, ?_⟩
                  · rw [← hc1]; simp [hb]
                  · intro x hx
                    rw [← hc1]
                    simp [hsub x hx]
            | ok job =>
              injection hc with hc1 hc2
              cases rr with
              | error m => exact absurd hc2 (by simp [Except.map])
              | ok jobs2 =>
                have hj : (k, job) :: jobs2 = jobs := by
                  simpa [Except.map] using hc2
                obtain ⟨ha, hb, hsub⟩ := ih hnd2 htail hpj hrec
                have hne : k ≠ jid := by
                  intro hx
                  exact hout (hx ▸ List.mem_map.mpr ⟨(jid, yv), htail, rfl⟩)
                refine ⟨?_, ?_, ?_⟩
                · rw [← hj, alookup]
                  simp only [hne, if_false]
                  exact ha
                · rw [← hc1]; simp [hb]
                · intro x hx
                  rw [← hc1]
                  simp [hsub x hx]

end ModelT

namespace ModelT

theorem parseStepsJobTail_not_internal {jobId : String}
    {body : List (String × Yaml)} {steps : List Step} {m : String}
    (h : parseStepsJobTail jobId body steps = .error (.internal m)) : False := by
  rw [parseStepsJobTail] at h
  repeat' split at h
  all_goals first
    | exact Except.noConfusion h
    | exact StepFail.noConfusion (Except.error.inj h)

theorem parseUsesJobBranch_not_internal {jobId : String}
    {body : List (String × Yaml)} {m : String}
    (h : parseUsesJobBranch jobId body = .error (.internal m)) : False := by
  rw [parseUsesJobBranch] at h
  dsimp only [] at h
  repeat' split at h
  all_goals first
    | exact Except.noConfusion h
    | exact StepFail.noConfusion (Except.error.inj h)

theorem collectSteps_snd_internal_msg {jobId : String} {items : List Yaml}
    {m : String} (h : (collectSteps jobId items).2 = .error (.internal m)) :
    m = "step cannot have run and uses" ∨ m = "step must have run or uses" := by
  apply collectStepsFrom_internal_msg
    (show collectStepsFrom jobId 0 items
        = ((collectStepsFrom jobId 0 items).1, Except.error (StepFail.internal m))
      from by rw [← h]; rfl)

theorem parseJob_internal_msg {jid : String} {yv : Yaml}
    {errsJ : List SchemaError} {m : String}
    (h : parseJob jid yv = (errsJ, .error (.internal m))) :
    m = "step cannot have run and uses" ∨ m = "step must have run or uses" := by
  cases yv
  case map body =>
    rw [parseJob] at h
    dsimp only [] at h
    split at h
    · injection h with h1 h2
      exact absurd h2 (by simp)
    · split at h
      · injection h with h1 h2
        exact absurd h2 (by simp)
      · split at h
        · split at h
          · split at h
            next f heq =>
              injection h with h1 h2
              injection h2 with h3
              rw [h3] at heq
              exact collectSteps_snd_internal_msg heq
            next steps heq =>
              injection h with h1 h2
              exact (parseStepsJobTail_not_internal h2).elim
          · injection h with h1 h2
            exact absurd h2 (by simp)
        · split at h
          · injection h with h1 h2
            exact (parseUsesJobBranch_not_internal h2).elim
          · injection h with h1 h2
            exact absurd h2 (by simp)
  all_goals
    (rw [parseJob] at h <;> try (intro entries hx; exact Yaml.noConfusion hx)
     split at h
     all_goals (injection h with h1 h2; exact absurd h2 (by simp)))

end ModelT

namespace ModelT

theorem collectJobsFrom_internal_msg :
    ∀ {entries : List (String × Yaml)} {errs : List SchemaError} {m : String},
      collectJobsFrom entries = (errs, .error m) →
      m = "step cannot have run and uses" ∨ m = "step must have run or uses" := by
  intro entries
  induction entries with
  | nil =>
    intro errs m h
    rw [collectJobsFrom] at h
    injection h with h1 h2
    exact absurd h2 (by simp)
  | cons e rest ih =>
    intro errs m h
    rw [collectJobsFrom] at h
    dsimp only [] at h
    cases hpr : parseJob e.1 e.2 with
    | mk errsE r =>
      rw [hpr] at h
      dsimp only [] at h
      cases hrec : collectJobsFrom rest with
      | mk errsR rr =>
        rw [hrec] at h
        dsimp only [] at h
        cases r with
        | error f =>
          cases f with
          | internal m2 =>
            injection h with h1 h2
            injection h2 with h3
            rw [h3] at hpr
            exact parseJob_internal_msg hpr
          | schema se =>
            injection h with h1 h2
            rw [h2] at hrec
            exact ih hrec
        | ok job =>
          injection h with h1 h2
          cases rr with
          | error m2 =>
            have hm : m2 = m := by simpa [Except.map] using h2
            rw [hm] at hrec
            exact ih hrec
          | ok jobs2 => exact absurd h2 (by simp [Except.map])

theorem collectJobs_internal_msg {wfYaml : List (String × Yaml)}
    {errs : List SchemaError} {m : String}
    (h : collectJobs wfYaml = (errs, .error m)) :
    m = "step cannot have run and uses" ∨ m = "step must have run or uses" := by
  rw [collectJobs] at h
  repeat' split at h
  all_goals first
    | (injection h with h1 h2; exact absurd h2 (by simp))
    | exact collectJobsFrom_internal_msg h

/-- The components of a successful read: the event mapping, the job map and
the concatenated schema-error list. -/
theorem readWorkflowModel_ok_parts {y : Yaml} {wfYaml : List (String × Yaml)}
    {res : ReadResult} (hy : readYaml y = .ok wfYaml)
    (hres : readWorkflowModel y = .ok res) :
    ∃ errsJobs jobs, collectJobs wfYaml = (errsJobs, .ok jobs) ∧
      res.workflow.jobs = jobs ∧
      res.workflow.onEv = (collectEventCfgs wfYaml).1 ∧
      res.schemaErrors = (collectEventCfgs wfYaml).2 ++ errsJobs
        ++ checkUnsupportedWorkflowKeys wfYaml ++ workflowDefaultsErrs wfYaml := by
  rw [readWorkflowModel, hy] at hres
  try dsimp only [] at hres
  cases hc : collectJobs wfYaml with
  | mk errsJobs r =>
    rw [hc] at hres
    try dsimp only [] at hres
    cases r with
    | error m => exact absurd hres (by simp)
    | ok jobs =>
      refine ⟨errsJobs, jobs, rfl, ?_, ?_, ?_⟩
      all_goals
        (injection hres with h1
         rw [← h1])

theorem readWorkflowModel_typeErr {y : Yaml} {m : String} :
    readWorkflowModel y = .error (.typeErr m) ↔
      (isMapV y = false ∧ m = beginAgainMsg (typeofYaml y)) := by
  constructor
  · intro h
    cases y
    case map entries =>
      rw [readWorkflowModel] at h
      try dsimp only [readYaml] at h
      try dsimp only [] at h
      cases hc : collectJobs entries with
      | mk errsJobs r =>
        rw [hc] at h
        try dsimp only [] at h
        cases r with
        | error m2 => simp at h
        | ok jobs => simp at h
    all_goals
      (rw [readWorkflowModel] at h
       try dsimp only [readYaml] at h
       refine ⟨rfl, ?_⟩
       injection h with h1
       injection h1 with h2
       exact h2.symm)
  · intro ⟨hm, he⟩
    cases y
    case map entries => simp [isMapV] at hm
    all_goals
      (rw [readWorkflowModel]
       try dsimp only [readYaml]
       rw [he])

theorem readWorkflowModel_internal_msg {y : Yaml} {m : String}
    (h : readWorkflowModel y = .error (.internalErr m)) :
    (∃ entries, y = .map entries) ∧
      (m = "step cannot have run and uses" ∨ m = "step must have run or uses") := by
  cases y
  case map entries =>
    rw [readWorkflowModel] at h
    try dsimp only [readYaml] at h
    try dsimp only [] at h
    cases hc : collectJobs entries with
    | mk errsJobs r =>
      rw [hc] at h
      try dsimp only [] at h
      cases r with
      | error m2 =>
        have hm : m2 = m := by
          injection h with h1
          exact RdFail.internalErr.inj h1
        rw [hm] at hc
        exact ⟨⟨entries, rfl⟩, collectJobs_internal_msg hc⟩
      | ok jobs => exact absurd h (by simp)
  all_goals
    (rw [readWorkflowModel] at h
     try dsimp only [readYaml] at h
     injection h with h1
     exact RdFail.noConfusion h1)

end ModelT

namespace ModelT

theorem parseJob_both {jid : String} {body : List (String × Yaml)}
    (hid : jobAndStepIdTest jid = true)
    (hs : hasKey body "steps" = true) (hu : hasKey body "uses" = true) :
    parseJob jid (.map body) =
      (parseJobPrelimErrs jid body,
       .error (.schema { message := "Cannot define both `steps` and `uses` for a job",
                         object := "job", path := jobPath jid })) := by
  rw [parseJob]
  simp [hid, hs, hu]

theorem parseJob_neither {jid : String} {body : List (String × Yaml)}
    (hid : jobAndStepIdTest jid = true)
    (hs : hasKey body "steps" = false) (hu : hasKey body "uses" = false) :
    parseJob jid (.map body) =
      (parseJobPrelimErrs jid body,
       .error (.schema { message := "Must define `steps` or `uses` for a job",
                         object := "job", path := jobPath jid })) := by
  rw [parseJob]
  simp [hid, hs, hu]

theorem parseJob_uses_env {jid : String} {body : List (String × Yaml)}
    {spec : WfCallSpec} {w : Option (List (String × Scalar))}
    (hid : jobAndStepIdTest jid = true)
    (hs : hasKey body "steps" = false) (hu : hasKey body "uses" = true)
    (henv : hasKey body "env" = true)
    (hspec : parseJobUsesWorkflowValue ((lookupKey body "uses").getD .nul) jid = .ok spec)
    (hwith : parseJobWith jid body = .ok w) :
    parseJob jid (.map body) =
      (parseJobPrelimErrs jid body,
       .error (.schema { message := "`env` cannot be used with `uses`",
                         object := "job", path := jobPath jid })) := by
  rw [parseJob]
  simp only [hid, hs, hu, Bool.false_and, not_true, Bool.false_eq_true,
    if_false, not_false_eq_true, if_true]
  rw [parseUsesJobBranch, hspec, hwith]
  simp [UNSUPPORTED_WITH_USES, List.filter, henv]
  rfl

theorem parseJob_steps_fail {jid : String} {body : List (String × Yaml)}
    {items : List Yaml} {stepErrs : List SchemaError} {f : StepFail}
    (hid : jobAndStepIdTest jid = true)
    (hsy : lookupKey body "steps" = some (.arr items))
    (hu : hasKey body "uses" = false)
    (harr : isArrayOfMaps (.arr items) = true)
    (hcs : collectSteps jid items = (stepErrs, .error f)) :
    parseJob jid (.map body) =
      (parseJobPrelimErrs jid body ++ stepErrs, .error f) := by
  have hs : hasKey body "steps" = true := by
    simp [hasKey, hsy]
  rw [parseJob]
  simp [hid, hs, hu, hsy, harr, hcs]

end ModelT

namespace ModelT

theorem foldl_append_mem {β : Type} {f : List SchemaError → β → List SchemaError}
    (hf : ∀ a b, f a b = a ++ f [] b) :
    ∀ (l : List β) (init : List SchemaError) (x : SchemaError),
      x ∈ l.foldl f init → x ∈ init ∨ ∃ b ∈ l, x ∈ f [] b := by
  intro l
  induction l with
  | nil =>
    intro init x h
    rw [List.foldl_nil] at h
    exact Or.inl h
  | cons b rest ih =>
    intro init x h
    rw [List.foldl_cons] at h
    rcases ih (f init b) x h with hin | ⟨b2, hb2, hx⟩
    · rw [hf] at hin
      rcases List.mem_append.mp hin with h1 | h2
      · exact Or.inl h1
      · exact Or.inr ⟨b, List.mem_cons_self _ _, h2⟩
    · exact Or.inr ⟨b2, List.mem_cons_of_mem _ hb2, hx⟩

theorem jobsScoped_ne_on {p : String} (h : jobsScoped p) : p ≠ "on" := by
  obtain ⟨s, hs⟩ := h
  rw [hs]
  intro he
  have hl := congrArg String.length he
  rw [String.length_append] at hl
  have h5 : ("jobs." : String).length = 5 := rfl
  have h2 : ("on" : String).length = 2 := rfl
  rw [h5, h2] at hl
  omega

theorem defaults_ne_on {p s : String} (h : p = "defaults" ++ s) : p ≠ "on" := by
  rw [h]
  intro he
  have hl := congrArg String.length he
  rw [String.length_append] at hl
  have h8 : ("defaults" : String).length = 8 := rfl
  have h2 : ("on" : String).length = 2 := rfl
  rw [h8, h2] at hl
  omega

theorem checkUnsupportedJobKeys_scoped {body : List (String × Yaml)}
    {jid : String} {x : SchemaError}
    (h : x ∈ checkUnsupportedJobKeys body jid) : jobsScoped x.path := by
  rw [checkUnsupportedJobKeys] at h
  obtain ⟨k, _, hk⟩ := List.mem_filterMap.mp h
  split at hk
  · simp at hk
  · have hx : x.path = "jobs." ++ jid ++ "." ++ k := by
      cases (Option.some.injEq _ _).mp hk
      rfl
    exact ⟨jid ++ ("." ++ k), by rw [hx]; simp only [String.append_assoc]⟩

theorem checkUnsupportedJobContainerKeys_scoped {cy : List (String × Yaml)}
    {jid : String} {svc : Option String} {x : SchemaError}
    (h : x ∈ checkUnsupportedJobContainerKeys cy jid svc) : jobsScoped x.path := by
  rw [checkUnsupportedJobContainerKeys] at h
  obtain ⟨k, _, hk⟩ := List.mem_filterMap.mp h
  split at hk
  · simp at hk
  · cases svc with
    | some serviceId =>
      have hx : x.path = "jobs." ++ jid ++ ".services." ++ serviceId ++ "." ++ k := by
        cases (Option.some.injEq _ _).mp hk
        rfl
      exact ⟨jid ++ (".services." ++ (serviceId ++ ("." ++ k))),
        by rw [hx]; simp only [String.append_assoc]⟩
    | none =>
      have hx : x.path = "jobs." ++ jid ++ ".container." ++ k := by
        cases (Option.some.injEq _ _).mp hk
        rfl
      exact ⟨jid ++ (".container." ++ k), by rw [hx]; simp only [String.append_assoc]⟩

theorem checkUnsupportedJobStrategyKeys_scoped {sy : List (String × Yaml)}
    {jid : String} {x : SchemaError}
    (h : x ∈ checkUnsupportedJobStrategyKeys sy jid) : jobsScoped x.path := by
  rw [checkUnsupportedJobStrategyKeys] at h
  obtain ⟨k, _, hk⟩ := List.mem_filterMap.mp h
  split at hk
  · simp at hk
  · have hx : x.path = "jobs." ++ jid ++ ".strategy." ++ k := by
      cases (Option.some.injEq _ _).mp hk
      rfl
    exact ⟨jid ++ (".strategy." ++ k), by rw [hx]; simp only [String.append_assoc]⟩

theorem checkUnsupportedDefaultsKeys_job_scoped {dy : List (String × Yaml)}
    {jid : String} {x : SchemaError}
    (h : x ∈ checkUnsupportedDefaultsKeys dy (some jid)) : jobsScoped x.path := by
  rw [checkUnsupportedDefaultsKeys] at h
  rcases foldl_append_mem
      (by intro a b; obtain ⟨k, v⟩ := b; cases v <;> (repeat' split) <;> simp) dy [] x h with
    hin | ⟨b, hb, hx⟩
  · simp at hin
  · try dsimp only [] at hx
    split at hx
    · split at hx
      · rw [List.nil_append] at hx
        obtain ⟨k, _, hk⟩ := List.mem_filterMap.mp hx
        split at hk
        · simp at hk
        · have hp : x.path = "jobs." ++ jid ++ ".defaults.run." ++ k := by
            cases (Option.some.injEq _ _).mp hk
            rfl
          exact ⟨jid ++ (".defaults.run." ++ k), by rw [hp]; simp only [String.append_assoc]⟩
      · have hp : x = { message := "Must be an object of job run defaults config",
                        object := "job", path := "jobs." ++ jid ++ ".defaults" } := by
          simpa using hx
        exact ⟨jid ++ ".defaults", by rw [hp]; simp only [String.append_assoc]⟩
    · have hp : x = { message := "Job `" ++ jid ++ "` defaults has an unsupported field `" ++ b.1 ++ "`",
                      object := "job", path := "jobs." ++ jid ++ ".defaults." ++ b.1 } := by
        simpa using hx
      exact ⟨jid ++ (".defaults." ++ b.1), by rw [hp]; simp only [String.append_assoc]⟩

theorem workflowDefaultsErrs_path {wfYaml : List (String × Yaml)} {x : SchemaError}
    (h : x ∈ workflowDefaultsErrs wfYaml) : ∃ s, x.path = "defaults" ++ s := by
  rw [workflowDefaultsErrs] at h
  split at h
  · simp at h
  case _ m _ =>
    rw [checkUnsupportedDefaultsKeys] at h
    rcases foldl_append_mem
        (by intro a b; obtain ⟨k, v⟩ := b; cases v <;> (repeat' split) <;> simp) m [] x h with
      hin | ⟨b, hb, hx⟩
    · simp at hin
    · try dsimp only [] at hx
      split at hx
      · split at hx
        · rw [List.nil_append] at hx
          obtain ⟨k, _, hk⟩ := List.mem_filterMap.mp hx
          split at hk
          · simp at hk
          · have hp : x.path = "defaults.run." ++ k := by
              cases (Option.some.injEq _ _).mp hk
              rfl
            exact ⟨".run." ++ k, by
              rw [hp, ← String.append_assoc]
              exact congrArg (· ++ k) (by decide)⟩
        · have hp : x = { message := "Must be an object of workflow run defaults config",
                          object := "workflow", path := "defaults" } := by
            simpa using hx
          exact ⟨"", by rw [hp, String.append_empty]⟩
      · have hp : x = { message := "Workflow defaults has an unsupported field `" ++ b.1 ++ "`",
                        object := "workflow", path := "defaults." ++ b.1 } := by
          simpa using hx
        exact ⟨"." ++ b.1, by
          rw [hp, ← String.append_assoc]
          exact congrArg (· ++ b.1) (by decide)⟩
  · have hp : x = { message := "Must be an object of workflow defaults config",
                    object := "workflow", path := "defaults" } := by
      simpa using h
    exact ⟨"", by rw [hp, String.append_empty]⟩

theorem checkUnsupportedWorkflowKeys_ne_on {wfYaml : List (String × Yaml)}
    {x : SchemaError} (h : x ∈ checkUnsupportedWorkflowKeys wfYaml) :
    x.path ≠ "on" := by
  rw [checkUnsupportedWorkflowKeys] at h
  obtain ⟨k, _, hk⟩ := List.mem_filterMap.mp h
  split at hk
  · simp at hk
  case _ hcon =>
    have hp : x.path = k := by
      cases (Option.some.injEq _ _).mp hk
      rfl
    rw [hp]
    intro he
    rw [he] at hcon
    simp at hcon

end ModelT

namespace ModelT

theorem parseJobPrelimErrs_scoped {jid : String} {body : List (String × Yaml)}
    {x : SchemaError} (h : x ∈ parseJobPrelimErrs jid body) : jobsScoped x.path := by
  rw [parseJobPrelimErrs] at h
  rcases List.mem_append.mp h with h1 | h4
  rcases List.mem_append.mp h1 with h2 | h3
  rcases List.mem_append.mp h2 with h5 | h6
  rcases List.mem_append.mp h5 with h7 | h8
  · exact checkUnsupportedJobKeys_scoped h7
  · split at h8
    · simp at h8
    · exact checkUnsupportedJobContainerKeys_scoped h8
    · have hp : x.path = jobPath jid ++ ".container" := by
        rcases List.mem_singleton.mp h8 with rfl
        rfl
      exact hp ▸ jobPath_scoped _ _
  · split at h6
    · simp at h6
    · exact checkUnsupportedDefaultsKeys_job_scoped h6
    · have hp : x.path = jobPath jid ++ ".defaults" := by
        rcases List.mem_singleton.mp h6 with rfl
        rfl
      exact hp ▸ jobPath_scoped _ _
  · split at h3
    · simp at h3
    case _ svcs _ =>
      rcases foldl_append_mem
          (by intro a b; obtain ⟨k, v⟩ := b; cases v <;> (repeat' split) <;> simp)
          svcs [] x h3 with hin | ⟨b, hb, hx⟩
      · simp at hin
      · try dsimp only [] at hx
        split at hx
        case _ mm _ =>
          rw [List.nil_append] at hx
          exact checkUnsupportedJobContainerKeys_scoped hx
        case _ =>
          have hp : x.path = jobPath jid ++ (".services." ++ b.1) := by
            rcases List.mem_singleton.mp hx with rfl
            dsimp only [jobPath]
            simp only [String.append_assoc]
          exact hp ▸ jobPath_scoped _ _
    · have hp : x.path = jobPath jid ++ ".services" := by
        rcases List.mem_singleton.mp h3 with rfl
        rfl
      exact hp ▸ jobPath_scoped _ _
  · split at h4
    · simp at h4
    · exact checkUnsupportedJobStrategyKeys_scoped h4
    · have hp : x.path = jobPath jid ++ ".strategy" := by
        rcases List.mem_singleton.mp h4 with rfl
        rfl
      exact hp ▸ jobPath_scoped _ _

end ModelT

namespace ModelT

theorem parseJobIf_scoped {jid : String} {body : List (String × Yaml)}
    {e : SchemaError} (h : parseJobIf jid body = .error e) : jobsScoped e.path := by
  rw [parseJobIf] at h
  repeat' split at h
  all_goals first
    | ((first | (injection h with h2; rw [← h2]) | (rw [← h])); exact jobPath_scoped _ _)
    | simp at h

theorem parseJobName_scoped {jid : String} {body : List (String × Yaml)}
    {e : SchemaError} (h : parseJobName jid body = .error e) : jobsScoped e.path := by
  rw [parseJobName] at h
  repeat' split at h
  all_goals first
    | ((first | (injection h with h2; rw [← h2]) | (rw [← h])); exact jobPath_scoped _ _)
    | simp at h

theorem parseJobNeeds_scoped {jid : String} {body : List (String × Yaml)}
    {e : SchemaError} (h : parseJobNeeds jid body = .error e) : jobsScoped e.path := by
  rw [parseJobNeeds] at h
  repeat' split at h
  all_goals first
    | ((first | (injection h with h2; rw [← h2]) | (rw [← h])); exact jobPath_scoped _ _)
    | simp at h

theorem parseJobCommon_scoped {jid : String} {body : List (String × Yaml)}
    {e : SchemaError} (h : parseJobCommon jid body = .error e) : jobsScoped e.path := by
  rw [parseJobCommon] at h
  repeat' split at h
  all_goals first
    | ((first | (injection h with h2; rw [← h2]) | (rw [← h]))
       first
         | (apply parseJobIf_scoped; assumption)
         | (apply parseJobName_scoped; assumption)
         | (apply parseJobNeeds_scoped; assumption))
    | simp at h

theorem parseRunsOnValue_scoped {jid : String} {v : Yaml} {e : SchemaError}
    (h : parseRunsOnValue jid v = .error e) : jobsScoped e.path := by
  cases v
  all_goals
    (rw [parseRunsOnValue] at h
     repeat' split at h
     all_goals first
       | ((first | (injection h with h2; rw [← h2]) | (rw [← h])); exact jobPath_scoped _ _)
       | (intro z hz; exact Yaml.noConfusion hz)
       | simp at h)

theorem parseJobEnv_scoped {jid : String} {body : List (String × Yaml)}
    {e : SchemaError} (h : parseJobEnv jid body = .error e) : jobsScoped e.path := by
  rw [parseJobEnv] at h
  repeat' split at h
  all_goals first
    | ((first | (injection h with h2; rw [← h2]) | (rw [← h])); exact jobPath_scoped _ _)
    | simp at h

theorem parseJobRunsOn_scoped {jid : String} {body : List (String × Yaml)}
    {e : SchemaError} (h : parseJobRunsOn jid body = .error e) : jobsScoped e.path := by
  rw [parseJobRunsOn] at h
  split at h
  · rename_i e2 heq
    have he : e2 = e := by first | exact Except.error.inj h | exact h
    rw [← he]
    split at heq
    · exact absurd heq (by simp)
    · exact parseRunsOnValue_scoped heq
  · exact absurd h (by simp)
  · rename_i heq
    ((first | (injection h with h2; rw [← h2]) | (rw [← h])); exact jobPath_scoped _ _)

theorem parseJobWith_scoped {jid : String} {body : List (String × Yaml)}
    {e : SchemaError} (h : parseJobWith jid body = .error e) : jobsScoped e.path := by
  rw [parseJobWith] at h
  repeat' split at h
  all_goals first
    | ((first | (injection h with h2; rw [← h2]) | (rw [← h])); exact jobPath_scoped _ _)
    | simp at h

theorem parseJobUsesWorkflowValue_scoped {v : Yaml} {jid : String} {e : SchemaError}
    (h : parseJobUsesWorkflowValue v jid = .error e) : jobsScoped e.path := by
  cases v
  all_goals
    (rw [parseJobUsesWorkflowValue] at h
     try dsimp only [] at h
     repeat' split at h
     all_goals first
       | ((first | (injection h with h2; rw [← h2]) | (rw [← h])); exact jobPath_scoped _ _)
       | (intro z hz; exact Yaml.noConfusion hz)
       | simp at h)

theorem parseStepsJobTail_scoped {jid : String} {body : List (String × Yaml)}
    {steps : List Step} {e : SchemaError}
    (h : parseStepsJobTail jid body steps = .error (.schema e)) :
    jobsScoped e.path := by
  rw [parseStepsJobTail] at h
  repeat' split at h
  all_goals first
    | exact Except.noConfusion h
    | exact StepFail.noConfusion (Except.error.inj h)
    | ((first
          | (injection h with h2; injection h2 with h3; rw [← h3])
          | (injection h with h2; rw [← h2])
          | (rw [← h]))
       first
         | (apply parseJobEnv_scoped; assumption)
         | (apply parseJobRunsOn_scoped; assumption)
         | (apply parseJobCommon_scoped; assumption))

theorem parseUsesJobBranch_scoped {jid : String} {body : List (String × Yaml)}
    {e : SchemaError} (h : parseUsesJobBranch jid body = .error (.schema e)) :
    jobsScoped e.path := by
  rw [parseUsesJobBranch] at h
  try dsimp only [] at h
  repeat' split at h
  all_goals first
    | exact Except.noConfusion h
    | exact StepFail.noConfusion (Except.error.inj h)
    | ((first
          | (injection h with h2; injection h2 with h3; rw [← h3])
          | (injection h with h2; rw [← h2])
          | (rw [← h]))
       first
         | (apply parseJobUsesWorkflowValue_scoped; assumption)
         | (apply parseJobWith_scoped; assumption)
         | (apply parseJobCommon_scoped; assumption)
         | exact jobPath_scoped_bare _)

end ModelT

namespace ModelT

theorem collectSteps_snd_schema_path {jobId : String} {items : List Yaml}
    {e : SchemaError} (h : (collectSteps jobId items).2 = .error (.schema e)) :
    ∃ idx s, e.path = stepPath jobId idx ++ s := by
  apply collectStepsFrom_schema_path
    (show collectStepsFrom jobId 0 items
        = ((collectStepsFrom jobId 0 items).1, Except.error (StepFail.schema e))
      from by rw [← h]; rfl)

theorem collectSteps_fst_path {jobId : String} {items : List Yaml}
    {x : SchemaError} (h : x ∈ (collectSteps jobId items).1) :
    ∃ idx s, x.path = stepPath jobId idx ++ s :=
  collectStepsFrom_errs_path h

theorem parseJob_thrown_scoped {jid : String} {yv : Yaml}
    {errsJ : List SchemaError} {se : SchemaError}
    (h : parseJob jid yv = (errsJ, .error (.schema se))) : jobsScoped se.path := by
  cases yv
  case map body =>
    rw [parseJob] at h
    dsimp only [] at h
    split at h
    · injection h with h1 h2
      injection h2 with h3
      injection h3 with h4
      rw [← h4]
      exact jobPath_scoped_bare _
    · split at h
      · injection h with h1 h2
        injection h2 with h3
        injection h3 with h4
        rw [← h4]
        exact jobPath_scoped_bare _
      · split at h
        · split at h
          · split at h
            next f heq =>
              injection h with h1 h2
              injection h2 with h3
              rw [h3] at heq
              obtain ⟨idx, sfx, hp⟩ := collectSteps_snd_schema_path heq
              exact hp ▸ stepPath_scoped _ _ _
            next steps heq =>
              injection h with h1 h2
              exact parseStepsJobTail_scoped h2
          · injection h with h1 h2
            injection h2 with h3
            injection h3 with h4
            rw [← h4]
            exact jobPath_scoped _ _
        · split at h
          · injection h with h1 h2
            exact parseUsesJobBranch_scoped h2
          · injection h with h1 h2
            injection h2 with h3
            injection h3 with h4
            rw [← h4]
            exact jobPath_scoped_bare _
  all_goals
    (rw [parseJob] at h <;> try (intro entries hx; exact Yaml.noConfusion hx)
     split at h
     all_goals
       (injection h with h1 h2
        injection h2 with h3
        injection h3 with h4
        rw [← h4]
        exact jobPath_scoped_bare _))

theorem parseJob_errs_scoped {jid : String} {yv : Yaml} {x : SchemaError}
    (h : x ∈ (parseJob jid yv).1) : jobsScoped x.path := by
  cases yv
  case map body =>
    rw [parseJob] at h
    dsimp only [] at h
    split at h
    · simp at h
    · split at h
      · exact parseJobPrelimErrs_scoped h
      · split at h
        · split at h
          · split at h
            all_goals
              (rcases List.mem_append.mp h with h1 | h2
               · exact parseJobPrelimErrs_scoped h1
               · obtain ⟨idx, sfx, hp⟩ := collectSteps_fst_path h2
                 exact hp ▸ stepPath_scoped _ _ _)
          · exact parseJobPrelimErrs_scoped h
        · split at h
          · exact parseJobPrelimErrs_scoped h
          · exact parseJobPrelimErrs_scoped h
  all_goals
    (rw [parseJob] at h <;> try (intro entries hx; exact Yaml.noConfusion hx)
     split at h
     all_goals simp at h)

theorem collectJobsFrom_errs_scoped :
    ∀ {entries : List (String × Yaml)} {x : SchemaError},
      x ∈ (collectJobsFrom entries).1 → jobsScoped x.path := by
  intro entries
  induction entries with
  | nil =>
    intro x h
    rw [collectJobsFrom] at h
    simp at h
  | cons e rest ih =>
    intro x h
    rw [collectJobsFrom] at h
    dsimp only [] at h
    split at h
    next m heq =>
      exact parseJob_errs_scoped h
    next se heq =>
      rcases List.mem_append.mp h with h1 | h2
      · rcases List.mem_append.mp h1 with h3 | h4
        · exact parseJob_errs_scoped h3
        · have hx : x = se := by simpa using h4
          rw [hx]
          have hpair : parseJob e.1 e.2 = ((parseJob e.1 e.2).1, .error (.schema se)) := by
            rw [← heq]
          exact parseJob_thrown_scoped hpair
      · exact ih h2
    next job heq =>
      rcases List.mem_append.mp h with h1 | h2
      · exact parseJob_errs_scoped h1
      · exact ih h2

theorem collectJobs_errs_ne_on {wfYaml : List (String × Yaml)} {x : SchemaError}
    (h : x ∈ (collectJobs wfYaml).1) : x.path ≠ "on" := by
  rw [collectJobs] at h
  repeat' split at h
  all_goals first
    | (have hx : x.path = "jobs" := by
         rcases List.mem_singleton.mp h with rfl
         rfl
       rw [hx]; decide)
    | exact jobsScoped_ne_on (collectJobsFrom_errs_scoped h)

end ModelT

namespace ModelT

/-- C4: for every input to `read_workflow`, the begin-again `TypeError` is
raised exactly for a non-map root (with the root's dynamic kind
interpolated); a map-rooted document never raises it, and the only
exceptions that escape for a map root are the two plain step `Error`s of
`collectSteps` (so "no exception escapes for a map root" is corrected to
exclude those two internal errors). -/
theorem C4_theorem (y : Yaml) :
    (∀ m, readWorkflowModel y = .error (.typeErr m) ↔
       (isMapV y = false ∧ m = beginAgainMsg (typeofYaml y))) ∧
    (∀ m, readWorkflowModel y = .error (.internalErr m) →
       isMapV y = true ∧
       (m = "step cannot have run and uses" ∨ m = "step must have run or uses")) := by
  constructor
  · intro m
    exact readWorkflowModel_typeErr
  · intro m h
    obtain ⟨⟨entries, hy⟩, hm⟩ := readWorkflowModel_internal_msg h
    exact ⟨by rw [hy]; rfl, hm⟩

/-- C4 witness: a sequence-rooted document raises the begin-again error
with its dynamic kind. -/
theorem C4_witness :
    readWorkflowModel (Yaml.arr []) =
      .error (.typeErr (beginAgainMsg (typeofYaml (Yaml.arr [])))) :=
  ((C4_theorem (Yaml.arr [])).1 _).mpr ⟨rfl, rfl⟩

/-- A map-rooted document whose only step declares both `run` and `uses`. -/
def c4Doc : Yaml := .map [("jobs", .map [("jobx", .map [
  ("runs-on", Yaml.str "u"),
  ("steps", Yaml.arr [Yaml.map [("run", Yaml.str "x"), ("uses", Yaml.str "./a")]])])])]

/-- C4 counterexample: a map-rooted document on which an exception does
escape `read_workflow` — the internal `Error` thrown by `collectSteps` for
a step with both `run` and `uses` is caught nowhere. -/
theorem C4_counterexample :
    isMapV c4Doc = true ∧
    readWorkflowModel c4Doc = .error (.internalErr "step cannot have run and uses") :=
  ⟨rfl, rfl⟩

/-- C10: a map-rooted workflow document with no `on` key reads successfully
into a model whose event mapping is empty, and no error of the returned
list is at path `on`. -/
theorem C10_theorem {y : Yaml} {wfYaml : List (String × Yaml)} {res : ReadResult}
    (hy : readYaml y = .ok wfYaml)
    (hon : lookupKey wfYaml "on" = none)
    (hres : readWorkflowModel y = .ok res) :
    res.workflow.onEv = {} ∧ ∀ e ∈ res.schemaErrors, e.path ≠ "on" := by
  obtain ⟨errsJobs, jobs, hc, hjobs, honv, herrs⟩ := readWorkflowModel_ok_parts hy hres
  have hcec : collectEventCfgs wfYaml = ({}, []) := by
    rw [collectEventCfgs, hon]
  constructor
  · rw [honv, hcec]
  · intro e he
    rw [herrs] at he
    rcases List.mem_append.mp he with h1 | hdef
    · rcases List.mem_append.mp h1 with h2 | hwf
      · rcases List.mem_append.mp h2 with h3 | h4
        · rw [hcec] at h3
          simp at h3
        · have hmemJ : e ∈ (collectJobs wfYaml).1 := by
            rw [hc]
            exact h4
          exact collectJobs_errs_ne_on hmemJ
      · exact checkUnsupportedWorkflowKeys_ne_on hwf
    · obtain ⟨sfx, hp⟩ := workflowDefaultsErrs_path hdef
      exact defaults_ne_on hp

/-- A workflow document with a single Steps-kind job and no `on` key. -/
def c10Doc : Yaml := .map [("jobs", .map [("build", .map [
  ("runs-on", Yaml.str "ubuntu-latest"),
  ("steps", Yaml.arr [Yaml.map [("run", Yaml.str "ls")]])])])]

/-- The single step of the `on`-less document's job. -/
def c10Step : RunStep :=
  { id := none, ifCond := none, name := none, run := "ls", env := none }

/-- The single job of the `on`-less document's model. -/
def c10Job : StepsJob :=
  { ifCond := none, name := none, needs := none,
    runsOn := RunsOn.image "ubuntu-latest", steps := [Step.run c10Step],
    env := none }

/-- The model read from the `on`-less document. -/
def c10Res : ReadResult :=
  { workflow := { onEv := {}, jobs := [("build", Job.steps c10Job)] },
    schemaErrors := [] }

/-- C10 witness: the theorem applied to the concrete `on`-less document. -/
theorem C10_witness :
    readWorkflowModel c10Doc = .ok c10Res ∧
    (c10Res.workflow.onEv = {} ∧ ∀ e ∈ c10Res.schemaErrors, e.path ≠ "on") :=
  ⟨rfl, C10_theorem (y := c10Doc) rfl rfl rfl⟩

end ModelT

namespace ModelT

/-- C8: in every model returned by `read_workflow` each job is exactly one
of Steps-kind or Uses-kind; a job body declaring both `steps` and `uses` is
omitted from the model with the "Cannot define both" error at `jobs.<id>`,
one declaring neither is omitted with the "Must define" error, and a
Uses-kind body declaring `env` (whose `uses` and `with` parse) is omitted
with the error that `env` cannot be used with `uses`. -/
theorem C8_theorem {y : Yaml} {wfYaml : List (String × Yaml)} {res : ReadResult}
    {entries : List (String × Yaml)} {jid : String} {body : List (String × Yaml)}
    (hy : readYaml y = .ok wfYaml)
    (hres : readWorkflowModel y = .ok res)
    (hj : lookupKey wfYaml "jobs" = some (.map entries))
    (hne : entries.isEmpty = false)
    (hnd : (entries.map Prod.fst).Nodup)
    (hmem : (jid, .map body) ∈ entries)
    (hid : jobAndStepIdTest jid = true) :
    (∀ p ∈ res.workflow.jobs,
       (∃ sj, p.2 = Job.steps sj) ∨ (∃ uj, p.2 = Job.uses uj)) ∧
    (hasKey body "steps" = true → hasKey body "uses" = true →
       alookup res.workflow.jobs jid = none ∧
       { message := "Cannot define both `steps` and `uses` for a job",
         object := "job", path := jobPath jid } ∈ res.schemaErrors) ∧
    (hasKey body "steps" = false → hasKey body "uses" = false →
       alookup res.workflow.jobs jid = none ∧
       { message := "Must define `steps` or `uses` for a job",
         object := "job", path := jobPath jid } ∈ res.schemaErrors) ∧
    (∀ spec w, hasKey body "steps" = false → hasKey body "uses" = true →
       hasKey body "env" = true →
       parseJobUsesWorkflowValue ((lookupKey body "uses").getD .nul) jid = .ok spec →
       parseJobWith jid body = .ok w →
       alookup res.workflow.jobs jid = none ∧
       { message := "`env` cannot be used with `uses`",
         object := "job", path := jobPath jid } ∈ res.schemaErrors) := by
  obtain ⟨errsJobs, jobs, hc, hjobs, honv, herrs⟩ := readWorkflowModel_ok_parts hy hres
  rw [collectJobs, hj] at hc
  simp only [hne, Bool.false_eq_true, if_false] at hc
  refine ⟨?_, ?_, ?_, ?_⟩
  · intro p hp
    cases p.2 with
    | steps sj => exact Or.inl ⟨sj, rfl⟩
    | uses uj => exact Or.inr ⟨uj, rfl⟩
  · intro hs hu
    obtain ⟨ha, hb, _⟩ := collectJobsFrom_skip hnd hmem (parseJob_both hid hs hu) hc
    refine ⟨by rw [hjobs]; exact ha, ?_⟩
    rw [herrs]
    exact List.mem_append.mpr (Or.inl (List.mem_append.mpr (Or.inl
      (List.mem_append.mpr (Or.inr hb)))))
  · intro hs hu
    obtain ⟨ha, hb, _⟩ := collectJobsFrom_skip hnd hmem (parseJob_neither hid hs hu) hc
    refine ⟨by rw [hjobs]; exact ha, ?_⟩
    rw [herrs]
    exact List.mem_append.mpr (Or.inl (List.mem_append.mpr (Or.inl
      (List.mem_append.mpr (Or.inr hb)))))
  · intro spec w hs hu henv hspec hwith
    obtain ⟨ha, hb, _⟩ :=
      collectJobsFrom_skip hnd hmem (parseJob_uses_env hid hs hu henv hspec hwith) hc
    refine ⟨by rw [hjobs]; exact ha, ?_⟩
    rw [herrs]
    exact List.mem_append.mpr (Or.inl (List.mem_append.mpr (Or.inl
      (List.mem_append.mpr (Or.inr hb)))))

/-- A workflow document whose only job declares both `steps` and `uses`. -/
def c8Doc : Yaml := .map [("jobs", .map [("dual", .map [
  ("steps", Yaml.arr []),
  ("uses", Yaml.str "./x.yml"),
  ("runs-on", Yaml.str "u")])])]

/-- The two-field error record of the dual job. -/
def c8Err : SchemaError :=
  { message := "Cannot define both `steps` and `uses` for a job",
    object := "job", path := "jobs.dual" }

/-- The model read from the dual document: the job is omitted. -/
def c8Res : ReadResult :=
  { workflow := { onEv := {}, jobs := [] }, schemaErrors := [c8Err] }

/-- C8 witness: the theorem applied to the dual document omits the job and
emits the "Cannot define both" error. -/
theorem C8_witness :
    readWorkflowModel c8Doc = .ok c8Res ∧
    (alookup c8Res.workflow.jobs "dual" = none ∧
     { message := "Cannot define both `steps` and `uses` for a job",
       object := "job", path := jobPath "dual" } ∈ c8Res.schemaErrors) :=
  ⟨rfl,
   (C8_theorem (y := c8Doc) rfl rfl rfl rfl (by simp)
      (List.mem_singleton.mpr rfl) rfl).2.1 rfl rfl⟩

/-- C9: a schema violation thrown by any single step omits the whole job
from the model while the error stays scoped to that step's path, and the
per-step whitelist errors already recorded are retained. -/
theorem C9_theorem {y : Yaml} {wfYaml : List (String × Yaml)} {res : ReadResult}
    {entries : List (String × Yaml)} {jid : String} {body : List (String × Yaml)}
    {items : List Yaml} {stepErrs : List SchemaError} {e : SchemaError}
    (hy : readYaml y = .ok wfYaml)
    (hres : readWorkflowModel y = .ok res)
    (hj : lookupKey wfYaml "jobs" = some (.map entries))
    (hne : entries.isEmpty = false)
    (hnd : (entries.map Prod.fst).Nodup)
    (hmem : (jid, .map body) ∈ entries)
    (hid : jobAndStepIdTest jid = true)
    (hsy : lookupKey body "steps" = some (.arr items))
    (hu : hasKey body "uses" = false)
    (harr : isArrayOfMaps (.arr items) = true)
    (hcs : collectSteps jid items = (stepErrs, .error (.schema e))) :
    alookup res.workflow.jobs jid = none ∧
    e ∈ res.schemaErrors ∧
    (∃ idx sfx, e.path = stepPath jid idx ++ sfx) ∧
    ∀ x ∈ stepErrs, x ∈ res.schemaErrors := by
  obtain ⟨errsJobs, jobs, hc, hjobs, honv, herrs⟩ := readWorkflowModel_ok_parts hy hres
  rw [collectJobs, hj] at hc
  simp only [hne, Bool.false_eq_true, if_false] at hc
  obtain ⟨ha, hb, hsub⟩ :=
    collectJobsFrom_skip hnd hmem (parseJob_steps_fail hid hsy hu harr hcs) hc
  refine ⟨by rw [hjobs]; exact ha, ?_, ?_, ?_⟩
  · rw [herrs]
    exact List.mem_append.mpr (Or.inl (List.mem_append.mpr (Or.inl
      (List.mem_append.mpr (Or.inr hb)))))
  · exact collectSteps_snd_schema_path (by rw [hcs])
  · intro x hx
    have hmemJ : x ∈ errsJobs :=
      hsub x (List.mem_append.mpr (Or.inr hx))
    rw [herrs]
    exact List.mem_append.mpr (Or.inl (List.mem_append.mpr (Or.inl
      (List.mem_append.mpr (Or.inr hmemJ)))))

/-- A workflow document whose only job has a step with an unsupported key
and a non-string `run`. -/
def c9Doc : Yaml := .map [("jobs", .map [("build", .map [
  ("runs-on", Yaml.str "ubuntu-latest"),
  ("steps", Yaml.arr [Yaml.map [("foo", Yaml.str "x"), ("run", Yaml.num "42")]])])])]

/-- The whitelist error recorded before the step throws. -/
def c9FooErr : SchemaError :=
  { message := "Step of job `build` has an unsupported field `foo`",
    object := "step", path := "jobs.build.steps[0].foo" }

/-- The thrown step error. -/
def c9RunErr : SchemaError :=
  { message := "`run` must be a string", object := "step",
    path := "jobs.build.steps[0].run" }

/-- The model read from the bad-step document: the job is omitted, both
errors are kept. -/
def c9Res : ReadResult :=
  { workflow := { onEv := {}, jobs := [] }, schemaErrors := [c9FooErr, c9RunErr] }

/-- C9 witness: the theorem applied to the bad-step document. -/
theorem C9_witness :
    readWorkflowModel c9Doc = .ok c9Res ∧
    (alookup c9Res.workflow.jobs "build" = none ∧
     c9RunErr ∈ c9Res.schemaErrors ∧
     (∃ idx sfx, c9RunErr.path = stepPath "build" idx ++ sfx) ∧
     ∀ x ∈ [c9FooErr], x ∈ c9Res.schemaErrors) :=
  ⟨rfl,
   C9_theorem (y := c9Doc) rfl rfl rfl rfl (by simp)
     (List.mem_singleton.mpr rfl) rfl rfl rfl rfl rfl⟩

end ModelT

namespace ModelT

theorem parseInputProps_keeps (i : WfInput) (es : List (String × Yaml))
    (ev : EvKind) (iid : String) :
    (parseInputProps i es ev iid).1.type = i.type ∧
    (parseInputProps i es ev iid).1.options = i.options ∧
    (parseInputProps i es ev iid).1.defaultVal = i.defaultVal := by
  rw [parseInputProps]
  try dsimp only []
  repeat' split
  all_goals simp

/-- C6: a `choice` input requires `options`; any sequence of string-likes
(the empty sequence included — "non-empty" is not enforced) is accepted and
stringified; a string-like `default` outside the stringified options yields
the single "is not an input option" error at
`on.workflow_dispatch.inputs.<id>.default`, and a member default is stored
stringified. -/
theorem C6_theorem (entries : List (String × Yaml)) (inputId : String) :
    (lookupKey entries "options" = none →
       parseChoiceInput entries inputId =
         ([], .error { message := "Choice input must have `options`",
                       object := "input",
                       path := inputPath .workflow_dispatch inputId })) ∧
    (∀ items, lookupKey entries "options" = some (.arr items) →
       items.all isStringLike = true →
       lookupKey entries "default" = none →
       ∃ errs input, parseChoiceInput entries inputId = (errs, .ok input) ∧
         input.type = .choice ∧ input.options = items.map convertStringLike) ∧
    (∀ items d, lookupKey entries "options" = some (.arr items) →
       items.all isStringLike = true →
       lookupKey entries "default" = some d →
       isStringLike d = true →
       (items.map convertStringLike).contains (convertStringLike d) = false →
       (parseChoiceInput entries inputId).2 =
         .error { message := "`" ++ convertStringLike d ++ "` is not an input option",
                  object := "input",
                  path := inputPath .workflow_dispatch inputId ++ ".default" }) ∧
    (∀ items d, lookupKey entries "options" = some (.arr items) →
       items.all isStringLike = true →
       lookupKey entries "default" = some d →
       isStringLike d = true →
       (items.map convertStringLike).contains (convertStringLike d) = true →
       ∃ errs input, parseChoiceInput entries inputId = (errs, .ok input) ∧
         input.defaultVal = some (.s (convertStringLike d)) ∧
         input.options = items.map convertStringLike) := by
  refine ⟨?_, ?_, ?_, ?_⟩
  · intro hno
    rw [parseChoiceInput, hno]
  · intro items ho hall hd
    rw [parseChoiceInput, ho]
    simp only [hall, if_true]
    try dsimp only []
    rw [hd]
    refine ⟨_, _, rfl, ?_, ?_⟩
    · exact (parseInputProps_keeps _ _ _ _).1
    · exact (parseInputProps_keeps _ _ _ _).2.1
  · intro items d ho hall hd hsd hnc
    rw [parseChoiceInput, ho]
    simp only [hall, if_true]
    try dsimp only []
    rw [hd]
    simp only [hsd, if_true, hnc, Bool.false_eq_true, if_false]
  · intro items d ho hall hd hsd hyc
    rw [parseChoiceInput, ho]
    simp only [hall, if_true]
    try dsimp only []
    rw [hd]
    simp only [hsd, if_true, hyc]
    refine ⟨_, _, rfl, rfl, ?_⟩
    exact (parseInputProps_keeps _ _ _ _).2.1

/-- C6 counterexample: the empty `options` sequence is accepted — the input
parses with no error and empty options, so "non-empty" is not enforced by
the reader. -/
theorem C6_counterexample :
    parseChoiceInput [("type", Yaml.str "choice"), ("options", Yaml.arr [])] "pick"
      = ([], .ok { type := .choice, options := [] }) := rfl

/-- C6 witness: scenario S6 — `options: [Boo, Yaa], default: Yah` yields the
"is not an input option" error at the input's `default` path. -/
theorem C6_witness :
    (parseChoiceInput
        [("type", Yaml.str "choice"),
         ("options", Yaml.arr [Yaml.str "Boo", Yaml.str "Yaa"]),
         ("default", Yaml.str "Yah")] "happy_data").2 =
      .error { message := "`Yah` is not an input option", object := "input",
               path := inputPath .workflow_dispatch "happy_data" ++ ".default" } :=
  (C6_theorem _ _).2.2.1 [Yaml.str "Boo", Yaml.str "Yaa"] (Yaml.str "Yah")
    rfl rfl rfl rfl rfl

end ModelT
